import Mathlib

/-!
# basic_database: a line-oriented store of calendar events

A shallow embedding of `src/main.cpp` (classes `Date` and `Database`) together with
theorems about it.

Modelling conventions
* `std::string` is a `List Char` (one `Char` per byte); string literals are written
  `"...".toList`.
* the C++ type `int` is a 32-bit two's-complement integer.  Values are carried as `Int`;
  every arithmetic operation of the source that can leave the range is followed by
  `wrapInt32`, and `InInt32` is the range predicate.
* `throw std::invalid_argument(msg)` is `Except.error (Error.invalidArgument msg)`.
* `std::stringstream` used for reading is the list of characters not yet consumed; a
  formatted read that sets `failbit` returns `none`.
* `std::map<Date, std::set<std::string>>` is an association list kept in the order of the
  comparator; `std::set<std::string>` is a list kept in the order of `std::string`'s `<`.
  All look-ups follow the comparators (`!(a < b) && !(b < a)` is key equivalence), never
  structural equality.
-/

namespace BasicDatabase

/-! ## Machine integers -/

/-- Reduction of an integer to the 32-bit two's-complement range (`int` overflow wraps). -/
def wrapInt32 (v : Int) : Int := (v + 2147483648) % 4294967296 - 2147483648

/-- The values an `int` can hold. -/
def InInt32 (v : Int) : Prop := -2147483648 ≤ v ∧ v ≤ 2147483647

instance (v : Int) : Decidable (InInt32 v) := by unfold InInt32; infer_instance

/-- Product `a * b` on `int`. -/
def mulInt32 (a b : Int) : Int := wrapInt32 (a * b)

/-- Sum `a + b` on `int`. -/
def addInt32 (a b : Int) : Int := wrapInt32 (a + b)

/-- Function `std::abs(int)`: the negation of `INT_MIN` wraps back to `INT_MIN`. -/
def absInt32 (v : Int) : Int := if v < 0 then wrapInt32 (-v) else v

/-! ## Failures -/

/-- The single failure kind of the program, `std::invalid_argument`, with its message. -/
inductive Error where
  | invalidArgument (msg : List Char)
  deriving DecidableEq, Repr

deriving instance DecidableEq for Except

/-! ## Decimal text of numbers -/

/-- The character of a decimal digit. -/
def digitChar (n : Nat) : Char :=
  match n with
  | 0 => '0' | 1 => '1' | 2 => '2' | 3 => '3' | 4 => '4'
  | 5 => '5' | 6 => '6' | 7 => '7' | 8 => '8' | _ => '9'

/-- Decimal digits of `n`, most significant first, pushed in front of `acc`;
`fuel` bounds the number of digits produced. -/
def natDigitsAux : Nat → Nat → List Char → List Char
  | 0, _, acc => acc
  | fuel + 1, n, acc =>
    if n < 10 then digitChar n :: acc
    else natDigitsAux fuel (n / 10) (digitChar (n % 10) :: acc)

/-- Decimal text of a natural number (`"0"` for zero, no leading zeros otherwise). -/
def natDigits (n : Nat) : List Char := natDigitsAux (n + 1) n []

/-- Decimal text of an `int` as written by `operator<<` and `std::to_string`:
a `-` in front of the digits of the magnitude when negative. -/
def intToString (v : Int) : List Char :=
  if v < 0 then '-' :: natDigits v.natAbs else natDigits v.natAbs

/-- Output of a field under `std::setw(w) << std::setfill('0')` with the default
(right) adjustment: fill characters go in front, and a field at least `w` wide is
written unchanged. -/
def setwFill (w : Nat) (field : List Char) : List Char :=
  List.replicate (w - field.length) '0' ++ field

/-! ## Formatted input of an `int` -/

/-- Function `std::isspace` in the "C" locale. -/
def isSpace (c : Char) : Bool :=
  c = ' ' || c = '\t' || c = '\n' || c = '\x0b' || c = '\x0c' || c = '\r'

/-- Decimal digit characters. -/
def isDigit (c : Char) : Bool := decide ('0' ≤ c) && decide (c ≤ '9')

/-- Value of a decimal digit character (`c - '0'`). -/
def digitVal (c : Char) : Nat := c.toNat - 48

/-- Value of a run of decimal digits. -/
def digitsVal (ds : List Char) : Nat := ds.foldl (fun acc c => acc * 10 + digitVal c) 0

/-- An optional sign in front of a number: whether it is `-`, and what follows it. -/
def readSign : List Char → Bool × List Char
  | '-' :: r => (true, r)
  | '+' :: r => (false, r)
  | s => (false, s)

/-- Formatted read `ss >> n` for `int n`: skip white space, read an optional sign and the
longest run of digits.  The read fails (`none`) when there is no digit or when the value
does not fit an `int`; otherwise it gives the value and the unread rest. -/
def extractInt (ss : List Char) : Option (Int × List Char) :=
  let s := ss.dropWhile isSpace
  let (neg, s1) := readSign s
  let ds := s1.takeWhile isDigit
  let rest := s1.dropWhile isDigit
  if ds.isEmpty then none
  else
    let v : Int := if neg then -(digitsVal ds : Int) else (digitsVal ds : Int)
    if InInt32 v then some (v, rest) else none

/-! ## class Date -/

/-- A `Date` object: its three `int` fields. -/
structure Date where
  year : Int
  month : Int
  day : Int
  deriving DecidableEq, Repr

namespace Date

/-- Member function `Date::ValidateMonth`. -/
def ValidateMonth (month : Int) : Bool := decide (month ≥ 1) && decide (month ≤ 12)

/-- Member function `Date::ValidateDay`. -/
def ValidateDay (day : Int) : Bool := decide (day ≥ 1) && decide (day ≤ 31)

/-- The constructor `Date::Date(new_year, new_month, new_day)`. -/
def new (new_year new_month new_day : Int) : Except Error Date :=
  if ValidateMonth new_month then
    if ValidateDay new_day then
      .ok { year := new_year, month := new_month, day := new_day }
    else
      .error (.invalidArgument ("Day value is invalid: ".toList ++ intToString new_day))
  else
    .error (.invalidArgument ("Month value is invalid: ".toList ++ intToString new_month))

/-- Operator `Date::operator==`. -/
def eq (lhs rhs : Date) : Bool :=
  decide (lhs.year = rhs.year) && decide (lhs.month = rhs.month) && decide (lhs.day = rhs.day)

/-- The expression `year * 365 + month * 12 + day * 31` of `operator<`, in `int`
arithmetic. -/
def weight (d : Date) : Int :=
  addInt32 (addInt32 (mulInt32 d.year 365) (mulInt32 d.month 12)) (mulInt32 d.day 31)

/-- Operator `Date::operator<`. -/
def lt (lhs rhs : Date) : Bool := decide (lhs.weight < rhs.weight)

/-- Member function `Date::Print`. -/
def Print (d : Date) : List Char :=
  (if d.year < 0 then ['-'] else [])
    ++ setwFill 4 (intToString (absInt32 d.year)) ++ ['-']
    ++ setwFill 2 (intToString d.month) ++ ['-']
    ++ setwFill 2 (intToString d.day)

/-- Member function `Date::IsAllowedSymbol`. -/
def IsAllowedSymbol (c : Char) : Bool :=
  ['0', '1', '2', '3', '4', '5', '6', '7', '8', '9', '-', '+'].contains c

/-- Member function `Date::CheckAndSkipDelimiter`: whether the next character is `-`, and the stream
afterwards (the `-` consumed when it was there). -/
def CheckAndSkipDelimiter : List Char → Bool × List Char
  | '-' :: rest => (true, rest)
  | ss => (false, ss)

/-- Member function `Date::ThrowWrongDateFormatException`. -/
def ThrowWrongDateFormatException {α : Type} (source : List Char) : Except Error α :=
  .error (.invalidArgument ("Wrong date format: ".toList ++ source))

/-- Member function `Date::ParseDate`. -/
def ParseDate (source : List Char) : Except Error Date :=
  if source.length < 5 then ThrowWrongDateFormatException source
  else if !source.all IsAllowedSymbol then ThrowWrongDateFormatException source
  else
    match extractInt source with
    | none => ThrowWrongDateFormatException source
    | some (new_year, ss1) =>
      match CheckAndSkipDelimiter ss1 with
      | (false, _) => ThrowWrongDateFormatException source
      | (true, ss2) =>
        match extractInt ss2 with
        | none => ThrowWrongDateFormatException source
        | some (new_month, ss3) =>
          match CheckAndSkipDelimiter ss3 with
          | (false, _) => ThrowWrongDateFormatException source
          | (true, ss4) =>
            match extractInt ss4 with
            | none => ThrowWrongDateFormatException source
            | some (new_day, ss5) =>
              if !ss5.isEmpty then ThrowWrongDateFormatException source
              else Date.new new_year new_month new_day

/-- A date object that exists: it came out of the constructor, so its fields are `int`
values with the month and the day in range. -/
def Valid (d : Date) : Prop :=
  InInt32 d.year ∧ (1 ≤ d.month ∧ d.month ≤ 12) ∧ (1 ≤ d.day ∧ d.day ≤ 31)

instance (d : Date) : Decidable (Valid d) := by unfold Valid; infer_instance

/-- No step of `year * 365 + month * 12 + day * 31` leaves the range of `int`. -/
def NoOverflow (d : Date) : Prop :=
  InInt32 (d.year * 365) ∧ InInt32 (d.month * 12) ∧ InInt32 (d.year * 365 + d.month * 12)
    ∧ InInt32 (d.day * 31) ∧ InInt32 (d.year * 365 + d.month * 12 + d.day * 31)

instance (d : Date) : Decidable (NoOverflow d) := by unfold NoOverflow; infer_instance

end Date

/-! ## std::set<std::string> -/

/-- Operator `<` of `std::string`: lexicographic comparison of the characters. -/
def strLt : List Char → List Char → Bool
  | [], [] => false
  | [], _ :: _ => true
  | _ :: _, [] => false
  | a :: as, b :: bs => if a < b then true else if b < a then false else strLt as bs

/-- A `std::set<std::string>`: its elements in iteration order. -/
abbrev EventSet := List (List Char)

/-- Member function `std::set::insert`: the element goes to its place in the order unless
an equivalent element is already there. -/
def setInsert (e : List Char) : EventSet → EventSet
  | [] => [e]
  | x :: xs =>
    if strLt x e then x :: setInsert e xs
    else if strLt e x then e :: x :: xs
    else x :: xs

/-- Member function `std::set::count`: 1 when an equivalent element is present, else 0. -/
def setCount (e : List Char) : EventSet → Nat
  | [] => 0
  | x :: xs =>
    if strLt x e then setCount e xs
    else if strLt e x then 0
    else 1

/-- Member function `std::set::erase(key)`: the equivalent element, when present, is
removed. -/
def setErase (e : List Char) : EventSet → EventSet
  | [] => []
  | x :: xs =>
    if strLt x e then x :: setErase e xs
    else if strLt e x then x :: xs
    else xs

/-! ## std::map<Date, std::set<std::string>> -/

/-- The map `entries`: its key/value pairs in iteration order. -/
abbrev Entries := List (Date × EventSet)

/-- Look-up of a key (`std::map::count` and `std::map::at` in one): the value of the
entry whose key is equivalent to `date` under `Date::operator<`, when there is one. -/
def mapFind (date : Date) : Entries → Option EventSet
  | [] => none
  | (k, v) :: rest =>
    if Date.lt k date then mapFind date rest
    else if Date.lt date k then none
    else some v

/-- Member function `std::map::count`. -/
def mapCount (date : Date) (m : Entries) : Nat :=
  match mapFind date m with
  | some _ => 1
  | none => 0

/-- Member function `std::map::erase(key)`. -/
def mapErase (date : Date) : Entries → Entries
  | [] => []
  | (k, v) :: rest =>
    if Date.lt k date then (k, v) :: mapErase date rest
    else if Date.lt date k then (k, v) :: rest
    else rest

/-- An update through the reference returned by `std::map::operator[]`: the value of the
entry equivalent to `date` is replaced by `f` of it; when there is no such entry one is
first inserted at its place in the order, with key `date` and an empty set. -/
def mapIndexModify (date : Date) (f : EventSet → EventSet) : Entries → Entries
  | [] => [(date, f [])]
  | (k, v) :: rest =>
    if Date.lt k date then (k, v) :: mapIndexModify date f rest
    else if Date.lt date k then (date, f []) :: (k, v) :: rest
    else (k, f v) :: rest

/-- An update through the reference returned by `std::map::at` on a present key: the
value of the entry equivalent to `date` is replaced by `f` of it. -/
def mapAtModify (date : Date) (f : EventSet → EventSet) : Entries → Entries
  | [] => []
  | (k, v) :: rest =>
    if Date.lt k date then (k, v) :: mapAtModify date f rest
    else if Date.lt date k then (k, v) :: rest
    else (k, f v) :: rest

/-! ## class Database -/

/-- A `Database` object: the map `entries` (the member `commands_map` is constant). -/
structure Database where
  entries : Entries
  deriving DecidableEq, Repr

namespace Database

/-- The database a run starts with. -/
def empty : Database := { entries := [] }

/-- Member function `Database::AddEvent`: `entries[date].insert(event)`. -/
def AddEvent (db : Database) (date : Date) (event : List Char) : Database :=
  { entries := mapIndexModify date (setInsert event) db.entries }

/-- Member function `Database::DeleteDate`: the returned count (`static_cast<int>` of the
size of the set) and the database afterwards. -/
def DeleteDate (db : Database) (date : Date) : Int × Database :=
  match mapFind date db.entries with
  | some events => (wrapInt32 (events.length : Int), { entries := mapErase date db.entries })
  | none => (0, db)

/-- Member function `Database::DeleteEvent`: the returned flag and the database
afterwards. -/
def DeleteEvent (db : Database) (date : Date) (event : List Char) : Bool × Database :=
  match mapFind date db.entries with
  | some events =>
    if setCount event events ≠ 0 then
      let db1 : Database := { entries := mapAtModify date (setErase event) db.entries }
      if (setErase event events).isEmpty then (true, (DeleteDate db1 date).2)
      else (true, db1)
    else (false, db)
  | none => (false, db)

/-- Member function `Database::Find`. -/
def Find (db : Database) (date : Date) : Except Error EventSet :=
  match mapFind date db.entries with
  | some events => .ok events
  | none => .error (.invalidArgument "Date not found".toList)

/-- Member function `Database::Print`: the characters written to `std::cout`. -/
def Print (db : Database) : List Char :=
  (db.entries.map fun entry =>
    (entry.2.map fun event => entry.1.Print ++ [' '] ++ event ++ ['\n']).flatten).flatten

end Database

/-! ## The command interpreter -/

/-- Formatted read `ss >> str` for a `std::string`: skip white space, then take the
characters up to the next white space.  The token read (empty when the stream is
exhausted, in which case the string keeps its initial value `""`) and the unread rest. -/
def extractString (ss : List Char) : List Char × List Char :=
  let s := ss.dropWhile isSpace
  (s.takeWhile (fun c => !isSpace c), s.dropWhile (fun c => !isSpace c))

/-- Function `tolower` in the "C" locale. -/
def toLower (c : Char) : Char :=
  if 'A' ≤ c ∧ c ≤ 'Z' then Char.ofNat (c.toNat + 32) else c

/-- What a call of `ExecuteCommand` leaves behind: the database, the characters written to
`std::cout`, and the exception thrown, if any. -/
structure Outcome where
  db : Database
  output : List Char
  failure : Option Error
  deriving DecidableEq, Repr

namespace Database

/-- Member `Database::commands_map`. -/
def commands_map : List (List Char × Nat) :=
  [("add".toList, 0), ("del".toList, 1), ("find".toList, 2), ("print".toList, 3)]

/-- Member function `Database::ExecuteCommand`. -/
def ExecuteCommand (db : Database) (command : List Char) : Outcome :=
  let t0 := extractString command
  let t1 := extractString t0.2
  let t2 := extractString t1.2
  let arg1 := t1.1
  let arg2 := t2.1
  if t0.1.isEmpty then { db := db, output := [], failure := none }
  else
    let original := t0.1
    let arg0 := t0.1.map toLower
    match commands_map.lookup arg0 with
    | none =>
      { db := db, output := [],
        failure := some (.invalidArgument ("Unknown command: ".toList ++ original)) }
    | some 0 =>
      if arg1.isEmpty || arg2.isEmpty then
        { db := db, output := [],
          failure := some (.invalidArgument "Add requires 2 arguments (date event)".toList) }
      else
        match Date.ParseDate arg1 with
        | .error e => { db := db, output := [], failure := some e }
        | .ok date => { db := db.AddEvent date arg2, output := [], failure := none }
    | some 1 =>
      if arg1.isEmpty && arg2.isEmpty then
        { db := db, output := [],
          failure := some (.invalidArgument
            "Del requires 1 (date) or 2 arguments (date event)".toList) }
      else if !arg1.isEmpty && arg2.isEmpty then
        match Date.ParseDate arg1 with
        | .error e => { db := db, output := [], failure := some e }
        | .ok date =>
          let r := db.DeleteDate date
          { db := r.2,
            output := "Deleted ".toList ++ intToString r.1 ++ " events".toList ++ ['\n'],
            failure := none }
      else
        match Date.ParseDate arg1 with
        | .error e => { db := db, output := [], failure := some e }
        | .ok date =>
          let r := db.DeleteEvent date arg2
          { db := r.2,
            output := (if r.1 then "Deleted successfully".toList
              else "Event not found".toList) ++ ['\n'],
            failure := none }
    | some 2 =>
      if arg1.isEmpty || !arg2.isEmpty then
        { db := db, output := [],
          failure := some (.invalidArgument "Find requires 1 argument (date)".toList) }
      else
        match Date.ParseDate arg1 with
        | .error e => { db := db, output := [], failure := some e }
        | .ok date =>
          match db.Find date with
          | .error e => { db := db, output := [], failure := some e }
          | .ok events =>
            { db := db, output := (events.map fun e => e ++ ['\n']).flatten, failure := none }
    | some 3 =>
      if !arg1.isEmpty || !arg2.isEmpty then
        { db := db, output := [],
          failure := some (.invalidArgument "Print doesn't accept any argument".toList) }
      else { db := db, output := db.Print, failure := none }
    | some _ => { db := db, output := [], failure := none }

end Database

/-! ## Runs of the store -/

/-- One step of a run: a call of one of the three member functions that change `entries`,
or a command line given to `ExecuteCommand`. -/
inductive Call where
  | addEvent (date : Date) (event : List Char)
  | deleteEvent (date : Date) (event : List Char)
  | deleteDate (date : Date)
  | executeCommand (command : List Char)
  deriving Repr

namespace Database

/-- The database after one step. -/
def step (db : Database) : Call → Database
  | .addEvent date event => db.AddEvent date event
  | .deleteEvent date event => (db.DeleteEvent date event).2
  | .deleteDate date => (db.DeleteDate date).2
  | .executeCommand command => (db.ExecuteCommand command).db

/-- The database reached from the empty one by a sequence of steps. -/
def run (calls : List Call) : Database := calls.foldl step empty

/-- No entry of the map has an empty set of events. -/
def NoEmptySet (db : Database) : Bool := db.entries.all fun entry => !entry.2.isEmpty

end Database

/-! ## The command line, in the words of the specification -/

/-- The characters of a line up to its first white space, and the white-space-delimited
tokens of what follows them. -/
def splitTok : List Char → List Char × List (List Char)
  | [] => ([], [])
  | c :: cs =>
    if isSpace c then ([], if (splitTok cs).1.isEmpty then (splitTok cs).2
      else (splitTok cs).1 :: (splitTok cs).2)
    else (c :: (splitTok cs).1, (splitTok cs).2)

/-- The white-space-delimited tokens of a line, in order. -/
def tokens (line : List Char) : List (List Char) :=
  if (splitTok line).1.isEmpty then (splitTok line).2
  else (splitTok line).1 :: (splitTok line).2

/-- The token number `i` of a line (counted from 0), the empty string when the line has
fewer tokens. -/
def arg (line : List Char) (i : Nat) : List Char := (tokens line).getD i []

/-- The line with the characters of its first token put in lower case. -/
def lowerFirstToken (line : List Char) : List Char :=
  line.takeWhile isSpace
    ++ ((line.dropWhile isSpace).takeWhile fun c => !isSpace c).map toLower
    ++ (line.dropWhile isSpace).dropWhile fun c => !isSpace c

/-- The arity rule of the specification: whether the command with keyword `keyword` is
refused for its arguments.  `add` wants both arguments, `del` at least one, `find` the
first and not the second, `print` none. -/
def arityRefused (keyword arg1 arg2 : List Char) : Bool :=
  if keyword = "add".toList then arg1.isEmpty || arg2.isEmpty
  else if keyword = "del".toList then arg1.isEmpty && arg2.isEmpty
  else if keyword = "find".toList then arg1.isEmpty || !arg2.isEmpty
  else if keyword = "print".toList then !arg1.isEmpty || !arg2.isEmpty
  else false

/-- The message the source gives to the arity failure of each command. -/
def arityMessage (keyword : List Char) : List Char :=
  if keyword = "add".toList then "Add requires 2 arguments (date event)".toList
  else if keyword = "del".toList then
    "Del requires 1 (date) or 2 arguments (date event)".toList
  else if keyword = "find".toList then "Find requires 1 argument (date)".toList
  else "Print doesn't accept any argument".toList

/-! ## The store, in the words of the specification -/

namespace Database

/-- The order kept by `std::map` and `std::set`: the keys of `entries` are strictly
increasing under `Date::operator<`, and the labels of every set are strictly increasing
under `<` of `std::string`. -/
def WellFormed (db : Database) : Prop :=
  db.entries.Pairwise (fun a b => Date.lt a.1 b.1 = true)
    ∧ ∀ entry ∈ db.entries, entry.2.Pairwise (fun a b => strLt a b = true)

instance (db : Database) : Decidable (WellFormed db) := by unfold WellFormed; infer_instance

/-- The set of labels the store holds for the date `d`, the key being compared with `d`
component by component; `none` when no entry has the key `d`. -/
def entryOf (db : Database) (d : Date) : Option EventSet := db.entries.lookup d

/-- No key of the store other than `d` itself is equivalent to `d` under
`Date::operator<` (has the weighted sum of `d`). -/
def NoCollision (db : Database) (d : Date) : Prop :=
  ∀ entry ∈ db.entries, Date.lt entry.1 d = false → Date.lt d entry.1 = false → entry.1 = d

instance (db : Database) (d : Date) : Decidable (NoCollision db d) := by
  unfold NoCollision; infer_instance

/-- The number of event labels the store holds for the date `d`, 0 when it has no entry
for `d`. -/
def labelCount (db : Database) (d : Date) : Nat :=
  match db.entryOf d with
  | some v => v.length
  | none => 0

/-- The stored (date, event) pairs in the iteration order of the map and of its sets. -/
def pairs (db : Database) : List (Date × List Char) :=
  (db.entries.map fun entry => entry.2.map fun event => (entry.1, event)).flatten

/-- The line written for a stored pair: the text of the date, one space, the label, and
the end of line. -/
def line (pair : Date × List Char) : List Char :=
  pair.1.Print ++ [' '] ++ pair.2 ++ ['\n']

end Database

/-! ## The canonical text form, in the words of the specification -/

/-- Recogniser of the pattern `-?\d{4,}-\d{2}-\d{2}`: an optional `-`, at least four
digits, `-`, two digits, `-`, two digits, and nothing more. -/
def matchesCanonical (s : List Char) : Bool :=
  let s1 := match s with
    | '-' :: r => r
    | _ => s
  decide (4 ≤ (s1.takeWhile isDigit).length) &&
    match s1.dropWhile isDigit with
    | ['-', m1, m2, '-', d1, d2] => isDigit m1 && isDigit m2 && isDigit d1 && isDigit d2
    | _ => false

/-! ## The textual form of a date, in the words of the specification -/

/-- Value of a decimal literal: the digits `ds` after the optional sign `sgn`. -/
def signedVal (sgn ds : List Char) : Int :=
  if sgn = ['-'] then -(digitsVal ds : Int) else (digitsVal ds : Int)


/-- Removes the first character when it is one of `signs`. -/
def dropSign (signs : List Char) : List Char → List Char
  | [] => []
  | c :: r => if signs.contains c then r else c :: r

/-- Recogniser of the date grammar `[+|-]<digits>-<digits>-<digits>`: an optional `+` or
`-`, one or more digits, `-`, the month, `-`, the day, and nothing more, where the month
and the day are one or more digits that may be preceded by one of `fieldSigns`.  With
`fieldSigns = []` the month and the day are plain digits, as the specification
documents. -/
def matchesDateGrammar (fieldSigns : List Char) (s : List Char) : Bool :=
  let s1 := dropSign ['+', '-'] s
  !(s1.takeWhile isDigit).isEmpty &&
    match s1.dropWhile isDigit with
    | '-' :: r2 =>
      let s2 := dropSign fieldSigns r2
      !(s2.takeWhile isDigit).isEmpty &&
        match s2.dropWhile isDigit with
        | '-' :: r3 =>
          let s3 := dropSign fieldSigns r3
          !s3.isEmpty && s3.all isDigit
        | _ => false
    | _ => false

/-! ## Facts about machine integers -/

theorem wrapInt32_of_inInt32 {v : Int} (h : InInt32 v) : wrapInt32 v = v := by
  unfold InInt32 at h
  unfold wrapInt32
  omega

theorem weight_eq_wrap (d : Date) :
    d.weight = wrapInt32 (d.year * 365 + d.month * 12 + d.day * 31) := by
  unfold Date.weight addInt32 mulInt32 wrapInt32
  omega

/-! ## Facts about decimal text -/

theorem isDigit_digitChar (n : Nat) : isDigit (digitChar n) = true := by
  unfold digitChar
  split <;> decide

theorem digitVal_digitChar {n : Nat} (h : n < 10) : digitVal (digitChar n) = n := by
  interval_cases n <;> decide

theorem digitChar_ne_zero {n : Nat} (h : n ≠ 0) : digitChar n ≠ '0' := by
  unfold digitChar
  split <;> first | contradiction | decide

theorem digitsVal_append_singleton (ds : List Char) (c : Char) :
    digitsVal (ds ++ [c]) = digitsVal ds * 10 + digitVal c := by
  simp [digitsVal, List.foldl_append]

theorem natDigitsAux_spec : ∀ (fuel n : Nat) (acc : List Char), n < fuel →
    ∃ ds, natDigitsAux fuel n acc = ds ++ acc ∧ ds ≠ [] ∧ ds.all isDigit = true
      ∧ digitsVal ds = n ∧ (n ≠ 0 → ds.head? ≠ some '0') := by
  intro fuel
  induction fuel with
  | zero => intro n acc h; omega
  | succ fuel ih =>
    intro n acc h
    by_cases h10 : n < 10
    · refine ⟨[digitChar n], ?_, by simp, ?_, ?_, ?_⟩
      · simp [natDigitsAux, h10]
      · simp [isDigit_digitChar]
      · simp [digitsVal, digitVal_digitChar h10]
      · intro hn
        simpa using digitChar_ne_zero hn
    · have hlt : n / 10 < fuel := by omega
      obtain ⟨ds, hds, hne, hall, hval, hhead⟩ := ih (n / 10) (digitChar (n % 10) :: acc) hlt
      refine ⟨ds ++ [digitChar (n % 10)], ?_, by simp, ?_, ?_, ?_⟩
      · simp [natDigitsAux, h10, hds]
      · simp [List.all_append, hall, isDigit_digitChar]
      · rw [digitsVal_append_singleton, hval, digitVal_digitChar (Nat.mod_lt _ (by decide))]
        omega
      · intro _
        have hq : n / 10 ≠ 0 := by omega
        have := hhead hq
        cases ds with
        | nil => exact absurd rfl hne
        | cons c cs => simpa using this

theorem natDigits_spec (n : Nat) :
    natDigits n ≠ [] ∧ (natDigits n).all isDigit = true ∧ digitsVal (natDigits n) = n
      ∧ (n ≠ 0 → (natDigits n).head? ≠ some '0') := by
  obtain ⟨ds, hds, hne, hall, hval, hhead⟩ := natDigitsAux_spec (n + 1) n [] (by omega)
  have : natDigits n = ds := by simpa [natDigits] using hds
  rw [this]
  exact ⟨hne, hall, hval, hhead⟩

theorem digitsVal_replicate_zero_append (k : Nat) (ds : List Char) :
    digitsVal (List.replicate k '0' ++ ds) = digitsVal ds := by
  induction k with
  | zero => simp
  | succ k ih =>
    have h0 : digitVal '0' = 0 := by decide
    simp only [digitsVal, List.replicate_succ, List.cons_append, List.foldl_cons, h0] at ih ⊢
    simpa using ih

theorem all_isDigit_setwFill (w : Nat) (ds : List Char) (h : ds.all isDigit = true) :
    (setwFill w ds).all isDigit = true := by
  unfold setwFill
  rw [List.all_append, h, Bool.and_true]
  simp only [List.all_eq_true, List.mem_replicate]
  rintro c ⟨_, rfl⟩
  decide

theorem takeWhile_isDigit_append (ys rest : List Char) (h : ys.all isDigit = true)
    (hrest : ∀ c r, rest = c :: r → isDigit c = false) :
    (ys ++ rest).takeWhile isDigit = ys ∧ (ys ++ rest).dropWhile isDigit = rest := by
  induction ys with
  | nil =>
    cases rest with
    | nil => simp
    | cons c r => simp [hrest c r rfl]
  | cons y ys ih =>
    simp only [List.all_cons, Bool.and_eq_true] at h
    obtain ⟨h1, h2⟩ := ih h.2
    simp [h.1, h1, h2]

theorem two_digit_field (m : Int) (h1 : 1 ≤ m) (h2 : m ≤ 31) :
    setwFill 2 (intToString m) = [digitChar (m.toNat / 10), digitChar (m.toNat % 10)] := by
  interval_cases m <;> rfl

theorem intToString_absInt32 (y : Int) (h : InInt32 y) (hmin : y ≠ -2147483648) :
    intToString (absInt32 y) = natDigits y.natAbs := by
  unfold InInt32 at h
  by_cases hy : y < 0
  · have hw : wrapInt32 (-y) = -y := by
      apply wrapInt32_of_inInt32
      unfold InInt32
      omega
    have hn : ¬ (-y < 0) := by omega
    simp [absInt32, hy, hw, intToString, hn]
  · simp [absInt32, hy, intToString]

/-! ## Facts about formatted input -/

theorem isDigit_cases {c : Char} (h : isDigit c = true) :
    c ∈ ['0', '1', '2', '3', '4', '5', '6', '7', '8', '9'] := by
  simp only [isDigit, Bool.and_eq_true, decide_eq_true_eq] at h
  obtain ⟨h1, h2⟩ := h
  have h1n : 48 ≤ c.toNat := h1
  have h2n : c.toNat ≤ 57 := h2
  have hc : c = Char.ofNat c.toNat := (Char.ofNat_toNat c).symm
  generalize c.toNat = n at h1n h2n hc
  subst hc
  interval_cases n <;> decide

theorem isSpace_of_isDigit {c : Char} (h : isDigit c = true) : isSpace c = false := by
  have := isDigit_cases h
  simp only [List.mem_cons, List.mem_singleton, List.not_mem_nil, or_false] at this
  rcases this with rfl | rfl | rfl | rfl | rfl | rfl | rfl | rfl | rfl | rfl <;> decide

theorem isAllowedSymbol_of_isDigit {c : Char} (h : isDigit c = true) :
    Date.IsAllowedSymbol c = true := by
  have := isDigit_cases h
  simp only [List.mem_cons, List.mem_singleton, List.not_mem_nil, or_false] at this
  rcases this with rfl | rfl | rfl | rfl | rfl | rfl | rfl | rfl | rfl | rfl <;> decide

theorem isAllowedSymbol_cases {c : Char} (h : Date.IsAllowedSymbol c = true) :
    isDigit c = true ∨ c = '-' ∨ c = '+' := by
  simp only [Date.IsAllowedSymbol, List.contains_eq_any_beq, List.any_cons, List.any_nil,
    Bool.or_false, Bool.or_eq_true, beq_iff_eq] at h
  rcases h with h | h | h | h | h | h | h | h | h | h | h | h <;> subst h <;> decide

theorem isSpace_of_isAllowedSymbol {c : Char} (h : Date.IsAllowedSymbol c = true) :
    isSpace c = false := by
  rcases isAllowedSymbol_cases h with h | rfl | rfl
  · exact isSpace_of_isDigit h
  · decide
  · decide

theorem readSign_of_isDigit {c : Char} (r : List Char) (h : isDigit c = true) :
    readSign (c :: r) = (false, c :: r) := by
  unfold readSign
  split
  · rename_i heq
    simp only [List.cons.injEq] at heq
    rw [heq.1] at h
    exact absurd h (by decide)
  · rename_i heq
    simp only [List.cons.injEq] at heq
    rw [heq.1] at h
    exact absurd h (by decide)
  · rfl

theorem dropWhile_head_false {p : Char → Bool} : ∀ (l : List Char) (c : Char) (r : List Char),
    l.dropWhile p = c :: r → p c = false := by
  intro l
  induction l with
  | nil => intro c r h; simp at h
  | cons x xs ih =>
    intro c r h
    by_cases hx : p x = true
    · rw [List.dropWhile_cons_of_pos hx] at h
      exact ih c r h
    · rw [List.dropWhile_cons_of_neg hx] at h
      simp only [List.cons.injEq] at h
      rw [← h.1]
      simpa using hx

theorem all_takeWhile (p : Char → Bool) (l : List Char) : (l.takeWhile p).all p = true := by
  rw [List.all_eq_true]
  intro a ha
  exact List.mem_takeWhile_imp ha

/-- The value read by `ss >> n` from a sign, a run of digits and a rest that does not go on
with a digit. -/
theorem extractInt_literal (sgn ds rest : List Char)
    (hs : sgn = [] ∨ sgn = ['+'] ∨ sgn = ['-'])
    (hne : ds ≠ []) (hall : ds.all isDigit = true)
    (hrest : ∀ c r, rest = c :: r → isDigit c = false) :
    extractInt (sgn ++ ds ++ rest)
      = if InInt32 (if sgn = ['-'] then -(digitsVal ds : Int) else (digitsVal ds : Int))
        then some ((if sgn = ['-'] then -(digitsVal ds : Int) else (digitsVal ds : Int)), rest)
        else none := by
  obtain ⟨ht, hd⟩ := takeWhile_isDigit_append ds rest hall hrest
  have hemp : ds.isEmpty = false := by
    cases ds with
    | nil => exact absurd rfl hne
    | cons _ _ => rfl
  cases ds with
  | nil => exact absurd rfl hne
  | cons y ys =>
    have hy : isDigit y = true := by
      simp only [List.all_cons, Bool.and_eq_true] at hall
      exact hall.1
    have hsp : isSpace y = false := isSpace_of_isDigit hy
    rcases hs with rfl | rfl | rfl
    · have h1 : ([] ++ (y :: ys) ++ rest).dropWhile isSpace = y :: ys ++ rest := by
        simp [List.dropWhile_cons, hsp]
      simp only [extractInt, h1]
      rw [show y :: ys ++ rest = y :: (ys ++ rest) from rfl, readSign_of_isDigit _ hy]
      simp only [← List.cons_append, ht, hd, hemp]
      simp
    · have h1 : (['+'] ++ (y :: ys) ++ rest).dropWhile isSpace = '+' :: (y :: ys ++ rest) := by
        have : isSpace '+' = false := by decide
        simp [List.dropWhile_cons, this]
      simp only [extractInt, h1, readSign, ht, hd, hemp]
      simp
    · have h1 : (['-'] ++ (y :: ys) ++ rest).dropWhile isSpace = '-' :: (y :: ys ++ rest) := by
        have : isSpace '-' = false := by decide
        simp [List.dropWhile_cons, this]
      simp only [extractInt, h1, readSign, ht, hd, hemp]
      simp

/-- What a successful `ss >> n` has seen: white space, an optional sign, a non-empty run
of digits, and a rest that does not go on with a digit. -/
theorem extractInt_some {ss rest : List Char} {v : Int} (h : extractInt ss = some (v, rest)) :
    ∃ neg ds, readSign (ss.dropWhile isSpace) = (neg, ds ++ rest)
      ∧ ds = (readSign (ss.dropWhile isSpace)).2.takeWhile isDigit
      ∧ rest = (readSign (ss.dropWhile isSpace)).2.dropWhile isDigit
      ∧ ds ≠ [] ∧ ds.all isDigit = true
      ∧ v = (if neg = true then -(digitsVal ds : Int) else (digitsVal ds : Int))
      ∧ InInt32 v := by
  simp only [extractInt] at h
  generalize readSign (ss.dropWhile isSpace) = p at h ⊢
  obtain ⟨neg, s1⟩ := p
  simp only at h ⊢
  by_cases hemp : (s1.takeWhile isDigit).isEmpty = true
  · rw [if_pos hemp] at h
    exact absurd h (by simp)
  · rw [if_neg hemp] at h
    by_cases hin : InInt32 (if neg = true then -(digitsVal (s1.takeWhile isDigit) : Int)
        else (digitsVal (s1.takeWhile isDigit) : Int))
    · rw [if_pos hin] at h
      simp only [Option.some.injEq, Prod.mk.injEq] at h
      refine ⟨neg, s1.takeWhile isDigit, ?_, rfl, h.2.symm, ?_, all_takeWhile _ _, h.1.symm, ?_⟩
      · rw [← h.2, List.takeWhile_append_dropWhile]
      · intro hnil
        rw [hnil] at hemp
        exact hemp rfl
      · rw [← h.1]
        exact hin
    · rw [if_neg hin] at h
      exact absurd h (by simp)

/-! ## class Date: construction and comparison -/

/-- C1: for all integers year, month and day the constructor succeeds exactly when
`1 <= month <= 12` and `1 <= day <= 31`, whatever the year and with no calendar check; a
successful construction stores exactly the three arguments, and every other call fails
with `InvalidArgument`.  `(2021, 2, 31)` succeeds; month 0, month 13, day 0 and day 32
fail. -/
theorem Date_new_iff (year month day : Int) :
    (Date.new year month day = .ok ⟨year, month, day⟩
        ↔ (1 ≤ month ∧ month ≤ 12) ∧ (1 ≤ day ∧ day ≤ 31))
    ∧ ((∃ d, Date.new year month day = .ok d)
        ↔ (1 ≤ month ∧ month ≤ 12) ∧ (1 ≤ day ∧ day ≤ 31))
    ∧ (∀ d, Date.new year month day = .ok d
        → d.year = year ∧ d.month = month ∧ d.day = day)
    ∧ ((∃ msg, Date.new year month day = .error (.invalidArgument msg))
        ↔ ¬ ((1 ≤ month ∧ month ≤ 12) ∧ (1 ≤ day ∧ day ≤ 31)))
    ∧ Date.new 2021 2 31 = .ok ⟨2021, 2, 31⟩
    ∧ (∃ msg, Date.new year 0 day = .error (.invalidArgument msg))
    ∧ (∃ msg, Date.new year 13 day = .error (.invalidArgument msg))
    ∧ (∃ msg, Date.new year month 0 = .error (.invalidArgument msg))
    ∧ (∃ msg, Date.new year month 32 = .error (.invalidArgument msg)) := by
  have hm : Date.ValidateMonth month = true ↔ (1 ≤ month ∧ month ≤ 12) := by
    simp [Date.ValidateMonth]
  have hd : Date.ValidateDay day = true ↔ (1 ≤ day ∧ day ≤ 31) := by
    simp [Date.ValidateDay]
  refine ⟨?_, ?_, ?_, ?_, by decide, ?_, ?_, ?_, ?_⟩
  · unfold Date.new
    by_cases h1 : Date.ValidateMonth month = true <;>
      by_cases h2 : Date.ValidateDay day = true <;> simp [h1, h2, ← hm, ← hd]
  · unfold Date.new
    by_cases h1 : Date.ValidateMonth month = true <;>
      by_cases h2 : Date.ValidateDay day = true <;> simp [h1, h2, ← hm, ← hd]
  · intro d h
    unfold Date.new at h
    by_cases h1 : Date.ValidateMonth month = true <;>
      by_cases h2 : Date.ValidateDay day = true <;> simp [h1, h2] at h
    subst h
    exact ⟨rfl, rfl, rfl⟩
  · unfold Date.new
    by_cases h1 : Date.ValidateMonth month = true <;>
      by_cases h2 : Date.ValidateDay day = true <;> simp [h1, h2, ← hm, ← hd]
  · unfold Date.new
    simp [Date.ValidateMonth]
  · unfold Date.new
    simp [Date.ValidateMonth]
  · unfold Date.new
    by_cases h1 : Date.ValidateMonth month = true <;> simp [h1, Date.ValidateDay]
  · unfold Date.new
    by_cases h1 : Date.ValidateMonth month = true <;> simp [h1, Date.ValidateDay]

/-- C2, where it fails: the years 5883517 and 0 (both dates valid).  In `int` arithmetic
`5883517 * 365` exceeds `INT_MAX` and wraps to a negative value, so `operator<` puts the
date of year 5883517 before the date of year 0, while the weighted sums compared as
integers say the opposite. -/
theorem Date_lt_overflow_counterexample :
    Date.Valid ⟨5883517, 1, 1⟩ ∧ Date.Valid ⟨0, 1, 1⟩
    ∧ Date.lt ⟨5883517, 1, 1⟩ ⟨0, 1, 1⟩ = true
    ∧ ¬ ((5883517 : Int) * 365 + 1 * 12 + 1 * 31 < 0 * 365 + 1 * 12 + 1 * 31) := by
  decide

/-- C2 (amended): for every two dates, in particular every two valid dates, for which no
step of `year*365 + month*12 + day*31` leaves the range of `int` (every valid date with a
year from -5883516 to 5883513 is such a date), `a < b` holds if and only if
`a.year*365 + a.month*12 + a.day*31 < b.year*365 + b.month*12 + b.day*31` as integers; in
particular `Date(1,12,31) < Date(2,1,1)` is false and `Date(2,1,1) < Date(1,12,31)` is
true. -/
theorem Date_lt_iff_weighted_sum (a b : Date)
    (hoa : Date.NoOverflow a) (hob : Date.NoOverflow b) :
    (Date.lt a b = true
        ↔ a.year * 365 + a.month * 12 + a.day * 31 < b.year * 365 + b.month * 12 + b.day * 31)
    ∧ (∀ d : Date, Date.Valid d → -5883516 ≤ d.year → d.year ≤ 5883513 → Date.NoOverflow d)
    ∧ Date.lt ⟨1, 12, 31⟩ ⟨2, 1, 1⟩ = false
    ∧ Date.lt ⟨2, 1, 1⟩ ⟨1, 12, 31⟩ = true := by
  refine ⟨?_, ?_, by decide, by decide⟩
  · have hwa : a.weight = a.year * 365 + a.month * 12 + a.day * 31 := by
      rw [weight_eq_wrap]
      exact wrapInt32_of_inInt32 hoa.2.2.2.2
    have hwb : b.weight = b.year * 365 + b.month * 12 + b.day * 31 := by
      rw [weight_eq_wrap]
      exact wrapInt32_of_inInt32 hob.2.2.2.2
    simp [Date.lt, hwa, hwb]
  · intro d hv h1 h2
    obtain ⟨_, ⟨hm1, hm2⟩, ⟨hd1, hd2⟩⟩ := hv
    unfold Date.NoOverflow InInt32
    omega

/-- Witness for C2 (amended): the dates 2017-01-31 and 2017-02-01. -/
theorem Date_lt_iff_weighted_sum_witness :
    Date.Valid ⟨2017, 1, 31⟩ ∧ Date.Valid ⟨2017, 2, 1⟩
    ∧ Date.NoOverflow ⟨2017, 1, 31⟩ ∧ Date.NoOverflow ⟨2017, 2, 1⟩
    ∧ (Date.lt ⟨2017, 1, 31⟩ ⟨2017, 2, 1⟩ = true
        ↔ (2017 : Int) * 365 + 1 * 12 + 31 * 31 < 2017 * 365 + 2 * 12 + 1 * 31) :=
  ⟨by decide, by decide, by decide, by decide,
    (Date_lt_iff_weighted_sum ⟨2017, 1, 31⟩ ⟨2017, 2, 1⟩ (by decide) (by decide)).1⟩

/-- C3, at the failing input: `Date(0,3,12)` and `Date(1,1,1)` are valid dates with the
same weighted sum `0*365 + 3*12 + 12*31 = 408 = 1*365 + 1*12 + 1*31`, so none of
`a < b`, `a == b`, `b < a` holds, and the map, which identifies keys by `operator<`, keeps
the events of both under one key. -/
theorem Date_lt_not_trichotomous :
    Date.Valid ⟨0, 3, 12⟩ ∧ Date.Valid ⟨1, 1, 1⟩
    ∧ Date.lt ⟨0, 3, 12⟩ ⟨1, 1, 1⟩ = false
    ∧ Date.eq ⟨0, 3, 12⟩ ⟨1, 1, 1⟩ = false
    ∧ Date.lt ⟨1, 1, 1⟩ ⟨0, 3, 12⟩ = false
    ∧ mapCount ⟨1, 1, 1⟩ (Database.empty.AddEvent ⟨0, 3, 12⟩ "a".toList).entries = 1 := by
  decide

/-! ## class Date: the canonical text -/

theorem length_setwFill_ge (w : Nat) (ds : List Char) : w ≤ (setwFill w ds).length := by
  simp [setwFill]
  omega

theorem two_digit_val (m : Int) (h1 : 1 ≤ m) (h2 : m ≤ 31) :
    (digitsVal [digitChar (m.toNat / 10), digitChar (m.toNat % 10)] : Int) = m := by
  interval_cases m <;> rfl

theorem Date_Print_eq (d : Date) (hv : Date.Valid d) (hmin : d.year ≠ -2147483648) :
    Date.Print d
      = (if decide (d.year < 0) = true then ['-'] else [])
        ++ setwFill 4 (natDigits d.year.natAbs)
        ++ ['-', digitChar (d.month.toNat / 10), digitChar (d.month.toNat % 10),
            '-', digitChar (d.day.toNat / 10), digitChar (d.day.toNat % 10)] := by
  obtain ⟨hy, ⟨hm1, hm2⟩, ⟨hd1, hd2⟩⟩ := hv
  unfold Date.Print
  rw [intToString_absInt32 d.year hy hmin, two_digit_field d.month hm1 (by omega),
    two_digit_field d.day hd1 hd2]
  simp

theorem matchesCanonical_of_shape (neg : Bool) (ys : List Char) (m1 m2 d1 d2 : Char)
    (hys : ys.all isDigit = true) (hlen : 4 ≤ ys.length)
    (hm1 : isDigit m1 = true) (hm2 : isDigit m2 = true)
    (hd1 : isDigit d1 = true) (hd2 : isDigit d2 = true) :
    matchesCanonical ((if neg then ['-'] else []) ++ ys ++ ['-', m1, m2, '-', d1, d2])
      = true := by
  obtain ⟨ht, hdr⟩ := takeWhile_isDigit_append ys ['-', m1, m2, '-', d1, d2] hys
    (by intro c r h; simp at h; rw [← h.1]; decide)
  cases neg with
  | true =>
    simp only [matchesCanonical, if_true, List.cons_append, List.nil_append]
    rw [ht, hdr]
    simp [hlen, hm1, hm2, hd1, hd2]
  | false =>
    cases ys with
    | nil => simp at hlen
    | cons y ys =>
      have hy : isDigit y = true := by
        simp only [List.all_cons, Bool.and_eq_true] at hys
        exact hys.1
      have hne : y ≠ '-' := by
        rintro rfl
        exact absurd hy (by decide)
      have hs1 : (match y :: ys ++ ['-', m1, m2, '-', d1, d2] with
          | '-' :: r => r
          | _ => y :: ys ++ ['-', m1, m2, '-', d1, d2])
          = y :: ys ++ ['-', m1, m2, '-', d1, d2] := by
        split
        · rename_i r heq
          simp at heq
          exact absurd heq.1 hne
        · rfl
      simp only [matchesCanonical, Bool.false_eq_true, if_false, List.nil_append]
      rw [hs1, ht, hdr]
      simp only [List.length_cons] at hlen
      simp [hm1, hm2, hd1, hd2]
      omega

/-- C4, where it fails: the valid date of year `INT_MIN`.  `std::abs(INT_MIN)` wraps back
to `INT_MIN`, which is written with its own `-`, so the text carries two minus signs and
does not match `-?\d{4,}-\d{2}-\d{2}`. -/
theorem Date_Print_int_min_counterexample :
    Date.Valid ⟨-2147483648, 1, 1⟩
    ∧ Date.Print ⟨-2147483648, 1, 1⟩ = "--2147483648-01-01".toList
    ∧ matchesCanonical (Date.Print ⟨-2147483648, 1, 1⟩) = false := by
  decide

/-- C4 (amended): for every valid date whose year is not `INT_MIN` (-2147483648),
`Print()` returns exactly: a leading `-` if and only if the year is negative, then the
decimal digits of `|year|` (all digits, of value `|year|`, without a leading zero of their
own) left-padded with `0` to at least 4 characters and never truncated, then `-`, the
month as two digits, `-`, the day as two digits.  The text holds no `+` and matches
`-?\d{4,}-\d{2}-\d{2}`. -/
theorem Date_Print_canonical (d : Date) (hv : Date.Valid d) (hmin : d.year ≠ -2147483648) :
    Date.Print d
        = (if d.year < 0 then ['-'] else [])
          ++ (List.replicate (4 - (natDigits d.year.natAbs).length) '0'
              ++ natDigits d.year.natAbs)
          ++ ['-', digitChar (d.month.toNat / 10), digitChar (d.month.toNat % 10),
              '-', digitChar (d.day.toNat / 10), digitChar (d.day.toNat % 10)]
    ∧ (natDigits d.year.natAbs).all isDigit = true
    ∧ digitsVal (natDigits d.year.natAbs) = d.year.natAbs
    ∧ (d.year ≠ 0 → (natDigits d.year.natAbs).head? ≠ some '0')
    ∧ 4 ≤ (List.replicate (4 - (natDigits d.year.natAbs).length) '0'
              ++ natDigits d.year.natAbs).length
    ∧ (digitsVal [digitChar (d.month.toNat / 10), digitChar (d.month.toNat % 10)] : Int)
        = d.month
    ∧ (digitsVal [digitChar (d.day.toNat / 10), digitChar (d.day.toNat % 10)] : Int) = d.day
    ∧ '+' ∉ Date.Print d
    ∧ matchesCanonical (Date.Print d) = true := by
  obtain ⟨_, hall, hval, hhead⟩ := natDigits_spec d.year.natAbs
  have hprint := Date_Print_eq d hv hmin
  have hmatch : matchesCanonical (Date.Print d) = true := by
    rw [hprint]
    exact matchesCanonical_of_shape _ _ _ _ _ _ (all_isDigit_setwFill 4 _ hall)
      (length_setwFill_ge 4 _) (isDigit_digitChar _) (isDigit_digitChar _)
      (isDigit_digitChar _) (isDigit_digitChar _)
  refine ⟨?_, hall, hval, ?_, length_setwFill_ge 4 _,
    two_digit_val d.month hv.2.1.1 (by have := hv.2.1.2; omega),
    two_digit_val d.day hv.2.2.1 hv.2.2.2, ?_, hmatch⟩
  · rw [hprint]
    simp [setwFill]
  · intro h0
    exact hhead (by omega)
  · rw [hprint]
    have hfill := all_isDigit_setwFill 4 _ hall
    rw [List.all_eq_true] at hfill
    intro hmem
    simp only [List.mem_append, List.mem_cons, List.mem_singleton] at hmem
    have hplus : isDigit '+' = false := by decide
    rcases hmem with (hmem | hmem) | hmem
    · split at hmem
      · simp at hmem
      · simp at hmem
    · have := hfill _ hmem
      rw [hplus] at this
      exact absurd this (by decide)
    · have hd : ∀ n, '+' ≠ digitChar n := by
        intro n h
        have := isDigit_digitChar n
        rw [← h, hplus] at this
        exact absurd this (by decide)
      rcases hmem with h | h | h | h | h | h | h
      · exact absurd h (by decide)
      · exact hd _ h
      · exact hd _ h
      · exact absurd h (by decide)
      · exact hd _ h
      · exact hd _ h
      · simp at h

/-- Witness for C4 (amended): the date of 15 March of the year -44. -/
theorem Date_Print_canonical_witness :
    Date.Valid ⟨-44, 3, 15⟩ ∧ (-44 : Int) ≠ -2147483648
    ∧ Date.Print ⟨-44, 3, 15⟩ = "-0044-03-15".toList
    ∧ matchesCanonical (Date.Print ⟨-44, 3, 15⟩) = true :=
  ⟨by decide, by decide,
    (Date_Print_canonical ⟨-44, 3, 15⟩ (by decide) (by decide)).1.trans (by decide),
    (Date_Print_canonical ⟨-44, 3, 15⟩ (by decide) (by decide)).2.2.2.2.2.2.2.2⟩

/-! ## class Date: parsing -/

theorem checkAndSkipDelimiter_cons (r : List Char) :
    Date.CheckAndSkipDelimiter ('-' :: r) = (true, r) := rfl

/-- Value of `ParseDate` on a text made of three decimal literals joined by `-`. -/
theorem ParseDate_literal (ysgn ys msgn ms dsgn ds : List Char)
    (hysgn : ysgn = [] ∨ ysgn = ['+'] ∨ ysgn = ['-'])
    (hmsgn : msgn = [] ∨ msgn = ['+'] ∨ msgn = ['-'])
    (hdsgn : dsgn = [] ∨ dsgn = ['+'] ∨ dsgn = ['-'])
    (hys : ys ≠ []) (hysd : ys.all isDigit = true)
    (hms : ms ≠ []) (hmsd : ms.all isDigit = true)
    (hds : ds ≠ []) (hdsd : ds.all isDigit = true)
    (hy : InInt32 (signedVal ysgn ys)) (hm : InInt32 (signedVal msgn ms))
    (hd : InInt32 (signedVal dsgn ds)) :
    Date.ParseDate (ysgn ++ ys ++ '-' :: (msgn ++ ms ++ '-' :: (dsgn ++ ds)))
      = Date.new (signedVal ysgn ys) (signedVal msgn ms) (signedVal dsgn ds) := by
  have hdash : ∀ (t : List Char) (c : Char) (r : List Char),
      '-' :: t = c :: r → isDigit c = false := by
    intro t c r h
    simp only [List.cons.injEq] at h
    rw [← h.1]
    decide
  have hnil : ∀ (c : Char) (r : List Char), ([] : List Char) = c :: r → isDigit c = false := by
    intro c r h
    exact absurd h (by simp)
  have hsignAllowed : ∀ sgn : List Char, (sgn = [] ∨ sgn = ['+'] ∨ sgn = ['-']) →
      sgn.all Date.IsAllowedSymbol = true := by
    intro sgn h
    rcases h with rfl | rfl | rfl <;> decide
  have hdigAllowed : ∀ l : List Char, l.all isDigit = true →
      l.all Date.IsAllowedSymbol = true := by
    intro l h
    rw [List.all_eq_true] at h ⊢
    intro c hc
    exact isAllowedSymbol_of_isDigit (h c hc)
  have hlen : ¬ (ysgn ++ ys ++ '-' :: (msgn ++ ms ++ '-' :: (dsgn ++ ds))).length < 5 := by
    have h1 := List.length_pos.mpr hys
    have h2 := List.length_pos.mpr hms
    have h3 := List.length_pos.mpr hds
    simp only [List.length_append, List.length_cons]
    omega
  have hallowed : (ysgn ++ ys ++ '-' :: (msgn ++ ms ++ '-' :: (dsgn ++ ds))).all
      Date.IsAllowedSymbol = true := by
    have hminus : Date.IsAllowedSymbol '-' = true := by decide
    simp only [List.all_append, List.all_cons, hsignAllowed _ hysgn, hsignAllowed _ hmsgn,
      hsignAllowed _ hdsgn, hdigAllowed _ hysd, hdigAllowed _ hmsd, hdigAllowed _ hdsd,
      hminus, Bool.and_self]
  have e1 := extractInt_literal ysgn ys ('-' :: (msgn ++ ms ++ '-' :: (dsgn ++ ds)))
    hysgn hys hysd (hdash _)
  have e2 := extractInt_literal msgn ms ('-' :: (dsgn ++ ds)) hmsgn hms hmsd (hdash _)
  have e3 := extractInt_literal dsgn ds [] hdsgn hds hdsd hnil
  rw [List.append_nil] at e3
  unfold signedVal at hy hm hd ⊢
  rw [if_pos hy] at e1
  rw [if_pos hm] at e2
  rw [if_pos hd] at e3
  unfold Date.ParseDate
  rw [if_neg hlen, hallowed]
  simp only [Bool.not_true, Bool.false_eq_true, if_false, e1, checkAndSkipDelimiter_cons, e2,
    e3, List.isEmpty_nil]

theorem Date_new_of_valid (d : Date) (hv : Date.Valid d) :
    Date.new d.year d.month d.day = .ok d := by
  obtain ⟨_, ⟨hm1, hm2⟩, ⟨hd1, hd2⟩⟩ := hv
  simp [Date.new, Date.ValidateMonth, Date.ValidateDay, hm1, hm2, hd1, hd2]

theorem Date_eq_self (d : Date) : Date.eq d d = true := by
  simp [Date.eq]

/-- C5, where it fails: the date of year `INT_MIN` is constructed successfully, its text
is `--2147483648-01-01`, and `ParseDate` rejects that text. -/
theorem ParseDate_Print_int_min_counterexample :
    Date.new (-2147483648) 1 1 = .ok ⟨-2147483648, 1, 1⟩
    ∧ Date.ParseDate (Date.Print ⟨-2147483648, 1, 1⟩)
        = .error (.invalidArgument "Wrong date format: --2147483648-01-01".toList) := by
  decide

/-- C5 (amended): round trip.  For every successfully constructed date `d` (an `int`
year, month in 1..12, day in 1..31) whose year is not `INT_MIN` (-2147483648),
`ParseDate(d.Print())` succeeds and returns a date equal, component-wise, to `d`. -/
theorem ParseDate_Print_roundtrip (d : Date) (hv : Date.Valid d)
    (hmin : d.year ≠ -2147483648) :
    ∃ r, Date.ParseDate (Date.Print d) = .ok r ∧ Date.eq r d = true ∧ r = d := by
  refine ⟨d, ?_, Date_eq_self d, rfl⟩
  have hprint := Date_Print_eq d hv hmin
  obtain ⟨hy, ⟨hm1, hm2⟩, ⟨hd1, hd2⟩⟩ := hv
  obtain ⟨hne, hall, hval, -⟩ := natDigits_spec d.year.natAbs
  have hyv : digitsVal (setwFill 4 (natDigits d.year.natAbs)) = d.year.natAbs := by
    unfold setwFill
    rw [digitsVal_replicate_zero_append, hval]
  have hyne : setwFill 4 (natDigits d.year.natAbs) ≠ [] := by
    intro h
    have := length_setwFill_ge 4 (natDigits d.year.natAbs)
    rw [h] at this
    simp at this
  have hsv : signedVal (if decide (d.year < 0) = true then ['-'] else [])
      (setwFill 4 (natDigits d.year.natAbs)) = d.year := by
    unfold signedVal
    rw [hyv]
    by_cases hneg : d.year < 0
    · simp only [hneg, decide_True, if_true]
      omega
    · simp only [hneg, decide_False, Bool.false_eq_true, if_false, List.nil_eq,
        List.cons_ne_self, reduceCtorEq]
      omega
  have hmv : signedVal [] [digitChar (d.month.toNat / 10), digitChar (d.month.toNat % 10)]
      = d.month := by
    simpa [signedVal] using two_digit_val d.month hm1 (by omega)
  have hdv : signedVal [] [digitChar (d.day.toNat / 10), digitChar (d.day.toNat % 10)]
      = d.day := by
    simpa [signedVal] using two_digit_val d.day hd1 hd2
  have hparse := ParseDate_literal
    (if decide (d.year < 0) = true then ['-'] else [])
    (setwFill 4 (natDigits d.year.natAbs))
    [] [digitChar (d.month.toNat / 10), digitChar (d.month.toNat % 10)]
    [] [digitChar (d.day.toNat / 10), digitChar (d.day.toNat % 10)]
    (by by_cases hneg : d.year < 0 <;> simp [hneg])
    (Or.inl rfl) (Or.inl rfl)
    hyne (all_isDigit_setwFill 4 _ hall)
    (by simp) (by simp [isDigit_digitChar])
    (by simp) (by simp [isDigit_digitChar])
    (by rw [hsv]; exact hy)
    (by rw [hmv]; unfold InInt32; omega)
    (by rw [hdv]; unfold InInt32; omega)
  rw [hsv, hmv, hdv] at hparse
  rw [hprint]
  simp only [List.nil_append] at hparse
  rw [show ((if decide (d.year < 0) = true then ['-'] else [])
        ++ setwFill 4 (natDigits d.year.natAbs)
        ++ ['-', digitChar (d.month.toNat / 10), digitChar (d.month.toNat % 10),
            '-', digitChar (d.day.toNat / 10), digitChar (d.day.toNat % 10)])
      = ((if decide (d.year < 0) = true then ['-'] else [])
        ++ setwFill 4 (natDigits d.year.natAbs)
        ++ '-' :: ([digitChar (d.month.toNat / 10), digitChar (d.month.toNat % 10)]
            ++ '-' :: [digitChar (d.day.toNat / 10), digitChar (d.day.toNat % 10)])) from rfl,
    hparse]
  exact Date_new_of_valid d ⟨hy, ⟨hm1, hm2⟩, ⟨hd1, hd2⟩⟩

/-- Witness for C5 (amended): the date of 15 March of the year -44. -/
theorem ParseDate_Print_roundtrip_witness :
    Date.Valid ⟨-44, 3, 15⟩ ∧ (-44 : Int) ≠ -2147483648
    ∧ ∃ r, Date.ParseDate (Date.Print ⟨-44, 3, 15⟩) = .ok r
        ∧ Date.eq r ⟨-44, 3, 15⟩ = true ∧ r = ⟨-44, 3, 15⟩ :=
  ⟨by decide, by decide, ParseDate_Print_roundtrip ⟨-44, 3, 15⟩ (by decide) (by decide)⟩

/-- C6: for every integer `y` and natural numbers `m` and `d` that fit in an `int`, and
every text made of a decimal literal of `y` (an optional `+` or `-`, then digits, leading
zeros allowed), `-`, decimal digits of `m`, `-`, decimal digits of `d`: `ParseDate`
succeeds if and only if `1 <= m <= 12` and `1 <= d <= 31`, a success yields the date with
year `y`, month `m` and day `d`, and out of that range the parse fails with
`InvalidArgument`. -/
theorem ParseDate_literal_iff (y : Int) (m d : Nat) (sgn ys ms ds : List Char)
    (hsgn : sgn = [] ∨ sgn = ['+'] ∨ sgn = ['-'])
    (hys : ys ≠ [] ∧ ys.all isDigit = true)
    (hms : ms ≠ [] ∧ ms.all isDigit = true)
    (hds : ds ≠ [] ∧ ds.all isDigit = true)
    (hyval : signedVal sgn ys = y) (hmval : digitsVal ms = m) (hdval : digitsVal ds = d)
    (hy : InInt32 y) (hm : (m : Int) ≤ 2147483647) (hd : (d : Int) ≤ 2147483647) :
    (Date.ParseDate (sgn ++ ys ++ ['-'] ++ ms ++ ['-'] ++ ds) = .ok ⟨y, m, d⟩
        ↔ (1 ≤ m ∧ m ≤ 12) ∧ (1 ≤ d ∧ d ≤ 31))
    ∧ ((∃ r, Date.ParseDate (sgn ++ ys ++ ['-'] ++ ms ++ ['-'] ++ ds) = .ok r)
        ↔ (1 ≤ m ∧ m ≤ 12) ∧ (1 ≤ d ∧ d ≤ 31))
    ∧ (∀ r, Date.ParseDate (sgn ++ ys ++ ['-'] ++ ms ++ ['-'] ++ ds) = .ok r
        → r.year = y ∧ r.month = m ∧ r.day = d)
    ∧ ((∃ msg, Date.ParseDate (sgn ++ ys ++ ['-'] ++ ms ++ ['-'] ++ ds)
          = .error (.invalidArgument msg))
        ↔ ¬ ((1 ≤ m ∧ m ≤ 12) ∧ (1 ≤ d ∧ d ≤ 31))) := by
  have hmv : signedVal [] ms = (m : Int) := by simp [signedVal, hmval]
  have hdv : signedVal [] ds = (d : Int) := by simp [signedVal, hdval]
  have hparse := ParseDate_literal sgn ys [] ms [] ds hsgn (Or.inl rfl) (Or.inl rfl)
    hys.1 hys.2 hms.1 hms.2 hds.1 hds.2
    (by rw [hyval]; exact hy)
    (by rw [hmv]; unfold InInt32; omega)
    (by rw [hdv]; unfold InInt32; omega)
  rw [hyval, hmv, hdv] at hparse
  have htext : sgn ++ ys ++ ['-'] ++ ms ++ ['-'] ++ ds
      = sgn ++ ys ++ '-' :: ([] ++ ms ++ '-' :: ([] ++ ds)) := by
    simp
  rw [htext, hparse]
  have hmi : Date.ValidateMonth (m : Int) = true ↔ (1 ≤ m ∧ m ≤ 12) := by
    simp [Date.ValidateMonth]
  have hdi : Date.ValidateDay (d : Int) = true ↔ (1 ≤ d ∧ d ≤ 31) := by
    simp [Date.ValidateDay]
  refine ⟨?_, ?_, ?_, ?_⟩
  · unfold Date.new
    by_cases h1 : Date.ValidateMonth (m : Int) = true <;>
      by_cases h2 : Date.ValidateDay (d : Int) = true <;> simp [h1, h2, ← hmi, ← hdi]
  · unfold Date.new
    by_cases h1 : Date.ValidateMonth (m : Int) = true <;>
      by_cases h2 : Date.ValidateDay (d : Int) = true <;> simp [h1, h2, ← hmi, ← hdi]
  · intro r h
    unfold Date.new at h
    by_cases h1 : Date.ValidateMonth (m : Int) = true <;>
      by_cases h2 : Date.ValidateDay (d : Int) = true <;> simp [h1, h2] at h
    subst h
    exact ⟨rfl, rfl, rfl⟩
  · unfold Date.new
    by_cases h1 : Date.ValidateMonth (m : Int) = true <;>
      by_cases h2 : Date.ValidateDay (d : Int) = true <;> simp [h1, h2, ← hmi, ← hdi]

/-- Witness for C6: the text `+0044-003-15`. -/
theorem ParseDate_literal_iff_witness :
    (Date.ParseDate "+0044-003-15".toList = .ok ⟨44, 3, 15⟩
        ↔ (1 ≤ 3 ∧ 3 ≤ 12) ∧ (1 ≤ 15 ∧ 15 ≤ 31))
    ∧ (∀ r, Date.ParseDate "+0044-003-15".toList = .ok r
        → r.year = 44 ∧ r.month = 3 ∧ r.day = 15) :=
  have h := ParseDate_literal_iff 44 3 15 ['+'] "0044".toList "003".toList "15".toList
    (by decide) (by decide) (by decide) (by decide) (by decide) (by decide) (by decide)
    (by decide) (by decide) (by decide)
  ⟨h.1, h.2.2.1⟩

theorem readSign_snd (s : List Char) : (readSign s).2 = dropSign ['+', '-'] s := by
  cases s with
  | nil => rfl
  | cons c r =>
    by_cases h1 : c = '-'
    · subst h1; rfl
    · by_cases h2 : c = '+'
      · subst h2; rfl
      · have hr : readSign (c :: r) = (false, c :: r) := by
          unfold readSign
          split
          · rename_i heq
            simp only [List.cons.injEq] at heq
            exact absurd heq.1 h1
          · rename_i heq
            simp only [List.cons.injEq] at heq
            exact absurd heq.1 h2
          · rfl
        rw [hr]
        simp [dropSign, h1, h2]

theorem readSign_snd_of_not_neg (s : List Char) (h : (readSign s).1 = false) :
    (readSign s).2 = dropSign ['+'] s := by
  cases s with
  | nil => rfl
  | cons c r =>
    by_cases h1 : c = '-'
    · subst h1
      exact absurd h (by simp [readSign])
    · by_cases h2 : c = '+'
      · subst h2; rfl
      · rw [readSign_snd]
        simp [dropSign, h1, h2]

theorem mem_of_mem_readSign_snd (s : List Char) (c : Char) (h : c ∈ (readSign s).2) :
    c ∈ s := by
  rw [readSign_snd] at h
  cases s with
  | nil => exact h
  | cons x r =>
    simp only [dropSign] at h
    split at h
    · exact List.mem_cons_of_mem _ h
    · exact h

theorem dropWhile_isSpace_of_allowed (l : List Char)
    (h : l.all Date.IsAllowedSymbol = true) : l.dropWhile isSpace = l := by
  cases l with
  | nil => rfl
  | cons c r =>
    simp only [List.all_cons, Bool.and_eq_true] at h
    simp [List.dropWhile_cons, isSpace_of_isAllowedSymbol h.1]

/-- What a successful `ss >> n` has seen when the stream holds allowed symbols only. -/
theorem extractInt_some_allowed {ss rest : List Char} {v : Int}
    (hal : ss.all Date.IsAllowedSymbol = true) (h : extractInt ss = some (v, rest)) :
    (readSign ss).2.takeWhile isDigit ≠ []
      ∧ (readSign ss).2.dropWhile isDigit = rest
      ∧ v = (if (readSign ss).1 = true
              then -(digitsVal ((readSign ss).2.takeWhile isDigit) : Int)
              else (digitsVal ((readSign ss).2.takeWhile isDigit) : Int))
      ∧ rest.all Date.IsAllowedSymbol = true := by
  obtain ⟨neg, ds, hrs, hds, hrest, hne, -, hv, -⟩ := extractInt_some h
  rw [dropWhile_isSpace_of_allowed ss hal] at hrs hds hrest
  refine ⟨?_, hrest.symm, ?_, ?_⟩
  · rw [← hds]
    exact hne
  · rw [← hds, hrs]
    exact hv
  · rw [List.all_eq_true] at hal ⊢
    intro c hc
    apply hal
    apply mem_of_mem_readSign_snd
    rw [hrs]
    exact List.mem_append_right _ hc

theorem checkAndSkipDelimiter_true {ss r : List Char}
    (h : Date.CheckAndSkipDelimiter ss = (true, r)) : ss = '-' :: r := by
  unfold Date.CheckAndSkipDelimiter at h
  split at h
  · simp only [Prod.mk.injEq, true_and] at h
    rw [h]
  · simp at h

/-- The reads behind a successful `ParseDate`. -/
theorem ParseDate_ok_inv {s : List Char} {d : Date} (h : Date.ParseDate s = .ok d) :
    5 ≤ s.length ∧ s.all Date.IsAllowedSymbol = true
      ∧ ∃ y m dd ss2 ss4, extractInt s = some (y, '-' :: ss2)
          ∧ extractInt ss2 = some (m, '-' :: ss4)
          ∧ extractInt ss4 = some (dd, [])
          ∧ Date.new y m dd = .ok d := by
  unfold Date.ParseDate at h
  by_cases hlen : s.length < 5
  · rw [if_pos hlen] at h
    exact absurd h (by simp [Date.ThrowWrongDateFormatException])
  rw [if_neg hlen] at h
  by_cases hal : s.all Date.IsAllowedSymbol = true
  swap
  · simp only [hal, Bool.not_false, if_true] at h
    exact absurd h (by simp [Date.ThrowWrongDateFormatException])
  simp only [hal, Bool.not_true, Bool.false_eq_true, if_false] at h
  refine ⟨by omega, hal, ?_⟩
  split at h
  · exact absurd h (by simp [Date.ThrowWrongDateFormatException])
  rename_i y ss1 he1
  split at h
  · exact absurd h (by simp [Date.ThrowWrongDateFormatException])
  rename_i ss2 hc1
  split at h
  · exact absurd h (by simp [Date.ThrowWrongDateFormatException])
  rename_i m ss3 he2
  split at h
  · exact absurd h (by simp [Date.ThrowWrongDateFormatException])
  rename_i ss4 hc2
  split at h
  · exact absurd h (by simp [Date.ThrowWrongDateFormatException])
  rename_i dd ss5 he3
  by_cases hemp : ss5.isEmpty = true
  swap
  · simp only [hemp, Bool.not_false, if_true] at h
    exact absurd h (by simp [Date.ThrowWrongDateFormatException])
  simp only [hemp, Bool.not_true, Bool.false_eq_true, if_false] at h
  have h5 : ss5 = [] := by simpa using hemp
  subst h5
  have h1 := checkAndSkipDelimiter_true hc1
  have h3 := checkAndSkipDelimiter_true hc2
  subst h1 h3
  exact ⟨y, m, dd, ss2, ss4, he1, he2, he3, h⟩

theorem Date_new_ok_range {y m dd : Int} {d : Date} (h : Date.new y m dd = .ok d) :
    1 ≤ m ∧ 1 ≤ dd := by
  unfold Date.new at h
  by_cases h1 : Date.ValidateMonth m = true
  · by_cases h2 : Date.ValidateDay dd = true
    · simp only [Date.ValidateMonth, Date.ValidateDay, Bool.and_eq_true,
        decide_eq_true_eq] at h1 h2
      exact ⟨h1.1, h2.1⟩
    · simp [h1, h2] at h
  · simp [h1] at h

theorem readSign_fst_of_pos {ss : List Char} {v : Int} (hpos : 1 ≤ v)
    (hv : v = (if (readSign ss).1 = true
              then -(digitsVal ((readSign ss).2.takeWhile isDigit) : Int)
              else (digitsVal ((readSign ss).2.takeWhile isDigit) : Int))) :
    (readSign ss).1 = false := by
  by_cases hneg : (readSign ss).1 = true
  · rw [if_pos hneg] at hv
    omega
  · simpa using hneg

theorem grammar_of_reads {s ss2 ss4 : List Char} {y m dd : Int}
    (hal : s.all Date.IsAllowedSymbol = true)
    (he1 : extractInt s = some (y, '-' :: ss2))
    (he2 : extractInt ss2 = some (m, '-' :: ss4))
    (he3 : extractInt ss4 = some (dd, []))
    (hm : 1 ≤ m) (hd : 1 ≤ dd) :
    matchesDateGrammar ['+'] s = true := by
  obtain ⟨hne1, hdr1, -, hal1⟩ := extractInt_some_allowed hal he1
  have hal2 : ss2.all Date.IsAllowedSymbol = true := by
    simp only [List.all_cons, Bool.and_eq_true] at hal1
    exact hal1.2
  obtain ⟨hne2, hdr2, hv2, hal3⟩ := extractInt_some_allowed hal2 he2
  have hal4 : ss4.all Date.IsAllowedSymbol = true := by
    simp only [List.all_cons, Bool.and_eq_true] at hal3
    exact hal3.2
  obtain ⟨hne3, hdr3, hv3, -⟩ := extractInt_some_allowed hal4 he3
  have hs2 := readSign_snd_of_not_neg ss2 (readSign_fst_of_pos hm hv2)
  have hs3 := readSign_snd_of_not_neg ss4 (readSign_fst_of_pos hd hv3)
  rw [readSign_snd] at hne1 hdr1
  rw [hs2] at hne2 hdr2
  rw [hs3] at hne3 hdr3
  have hall3 : (dropSign ['+'] ss4).all isDigit = true := by
    have := List.takeWhile_append_dropWhile isDigit (dropSign ['+'] ss4)
    rw [hdr3, List.append_nil] at this
    rw [← this]
    exact all_takeWhile _ _
  have hne3' : dropSign ['+'] ss4 ≠ [] := by
    intro h
    rw [h] at hne3
    exact hne3 rfl
  simp only [matchesDateGrammar, hdr1, hdr2, hall3, Bool.and_true, Bool.and_eq_true,
    Bool.not_eq_true', List.isEmpty_eq_false]
  exact ⟨hne1, hne2, hne3'⟩

/-- C7, where it fails: `2017-+1-+1` has a signed month and a signed day, so it is outside
the documented grammar, and `ParseDate` accepts it as the first of January 2017. -/
theorem ParseDate_signed_field_counterexample :
    Date.ParseDate "2017-+1-+1".toList = .ok ⟨2017, 1, 1⟩
    ∧ matchesDateGrammar [] "2017-+1-+1".toList = false := by
  decide

/-- C7 (amended): for every text on which `ParseDate` succeeds, the text has at least 5
characters, contains only digits, `-` and `+`, and has the shape: optional `+` or `-`,
one or more digits, `-`, an optional `+` and one or more digits (month), `-`, an
optional `+` and one or more digits (day), with nothing after; every other text is
rejected with `InvalidArgument`. -/
theorem ParseDate_accepts_only_grammar (s : List Char) :
    (∀ d, Date.ParseDate s = .ok d →
        5 ≤ s.length ∧ s.all Date.IsAllowedSymbol = true
          ∧ matchesDateGrammar ['+'] s = true)
    ∧ (¬ (5 ≤ s.length ∧ s.all Date.IsAllowedSymbol = true
            ∧ matchesDateGrammar ['+'] s = true)
        → ∃ msg, Date.ParseDate s = .error (.invalidArgument msg)) := by
  have key : ∀ d, Date.ParseDate s = .ok d →
      5 ≤ s.length ∧ s.all Date.IsAllowedSymbol = true
        ∧ matchesDateGrammar ['+'] s = true := by
    intro d h
    obtain ⟨hlen, hal, y, m, dd, ss2, ss4, he1, he2, he3, hnew⟩ := ParseDate_ok_inv h
    obtain ⟨hm, hd⟩ := Date_new_ok_range hnew
    exact ⟨hlen, hal, grammar_of_reads hal he1 he2 he3 hm hd⟩
  refine ⟨key, ?_⟩
  intro hnot
  cases hres : Date.ParseDate s with
  | error e =>
    cases e with
    | invalidArgument msg => exact ⟨msg, rfl⟩
  | ok d => exact absurd (key d hres) hnot

/-! ## The store: no date is kept with an empty set -/

theorem setInsert_ne_nil (e : List Char) (xs : EventSet) : setInsert e xs ≠ [] := by
  cases xs with
  | nil => simp [setInsert]
  | cons x xs =>
    unfold setInsert
    split
    · simp
    · split <;> simp

theorem mapFind_mapAtModify (date : Date) (f : EventSet → EventSet) (m : Entries) :
    mapFind date (mapAtModify date f m) = (mapFind date m).map f := by
  induction m with
  | nil => rfl
  | cons kv rest ih =>
    obtain ⟨k, v⟩ := kv
    by_cases h1 : Date.lt k date = true
    · simp [mapFind, mapAtModify, h1, ih]
    · by_cases h2 : Date.lt date k = true
      · simp [mapFind, mapAtModify, h1, h2]
      · simp [mapFind, mapAtModify, h1, h2]

theorem mapErase_mapAtModify (date : Date) (f : EventSet → EventSet) (m : Entries) :
    mapErase date (mapAtModify date f m) = mapErase date m := by
  induction m with
  | nil => rfl
  | cons kv rest ih =>
    obtain ⟨k, v⟩ := kv
    by_cases h1 : Date.lt k date = true
    · simp [mapErase, mapAtModify, h1, ih]
    · by_cases h2 : Date.lt date k = true
      · simp [mapErase, mapAtModify, h1, h2]
      · simp [mapErase, mapAtModify, h1, h2]

theorem allNonempty_mapIndexModify (date : Date) (f : EventSet → EventSet)
    (hf : ∀ v, f v ≠ []) (m : Entries) (hm : ∀ entry ∈ m, entry.2 ≠ []) :
    ∀ entry ∈ mapIndexModify date f m, entry.2 ≠ [] := by
  induction m with
  | nil =>
    intro entry he
    simp only [mapIndexModify, List.mem_singleton] at he
    subst he
    exact hf []
  | cons kv rest ih =>
    obtain ⟨k, v⟩ := kv
    have hrest : ∀ entry ∈ rest, entry.2 ≠ [] := fun e he => hm e (List.mem_cons_of_mem _ he)
    have hkv : v ≠ [] := hm (k, v) (List.mem_cons_self _ _)
    intro entry he
    cases h1 : Date.lt k date with
    | true =>
      simp only [mapIndexModify, h1, if_true, List.mem_cons] at he
      rcases he with rfl | he
      · exact hkv
      · exact ih hrest entry he
    | false =>
      cases h2 : Date.lt date k with
      | true =>
        simp only [mapIndexModify, h1, h2, if_true, Bool.false_eq_true, if_false,
          List.mem_cons] at he
        rcases he with rfl | rfl | he
        · exact hf []
        · exact hkv
        · exact hrest entry he
      | false =>
        simp only [mapIndexModify, h1, h2, Bool.false_eq_true, if_false, List.mem_cons] at he
        rcases he with rfl | he
        · exact hf v
        · exact hrest entry he

theorem allNonempty_mapErase (date : Date) (m : Entries) (hm : ∀ entry ∈ m, entry.2 ≠ []) :
    ∀ entry ∈ mapErase date m, entry.2 ≠ [] := by
  induction m with
  | nil =>
    intro entry he
    simp [mapErase] at he
  | cons kv rest ih =>
    obtain ⟨k, v⟩ := kv
    have hrest : ∀ entry ∈ rest, entry.2 ≠ [] := fun e he => hm e (List.mem_cons_of_mem _ he)
    have hkv : v ≠ [] := hm (k, v) (List.mem_cons_self _ _)
    intro entry he
    cases h1 : Date.lt k date with
    | true =>
      simp only [mapErase, h1, if_true, List.mem_cons] at he
      rcases he with rfl | he
      · exact hkv
      · exact ih hrest entry he
    | false =>
      cases h2 : Date.lt date k with
      | true =>
        simp only [mapErase, h1, h2, if_true, Bool.false_eq_true, if_false,
          List.mem_cons] at he
        rcases he with rfl | he
        · exact hkv
        · exact hrest entry he
      | false =>
        simp only [mapErase, h1, h2, Bool.false_eq_true, if_false] at he
        exact hrest entry he

theorem allNonempty_mapAtModify (date : Date) (f : EventSet → EventSet) (m : Entries)
    (events : EventSet) (hfind : mapFind date m = some events) (hf : f events ≠ [])
    (hm : ∀ entry ∈ m, entry.2 ≠ []) :
    ∀ entry ∈ mapAtModify date f m, entry.2 ≠ [] := by
  induction m with
  | nil => simp [mapFind] at hfind
  | cons kv rest ih =>
    obtain ⟨k, v⟩ := kv
    have hrest : ∀ entry ∈ rest, entry.2 ≠ [] := fun e he => hm e (List.mem_cons_of_mem _ he)
    have hkv : v ≠ [] := hm (k, v) (List.mem_cons_self _ _)
    intro entry he
    cases h1 : Date.lt k date with
    | true =>
      simp only [mapFind, h1, if_true] at hfind
      simp only [mapAtModify, h1, if_true, List.mem_cons] at he
      rcases he with rfl | he
      · exact hkv
      · exact ih hfind hrest entry he
    | false =>
      cases h2 : Date.lt date k with
      | true => simp [mapFind, h1, h2] at hfind
      | false =>
        simp only [mapFind, h1, h2, Bool.false_eq_true, if_false, Option.some.injEq] at hfind
        subst hfind
        simp only [mapAtModify, h1, h2, Bool.false_eq_true, if_false, List.mem_cons] at he
        rcases he with rfl | he
        · exact hf
        · exact hrest entry he

theorem noEmptySet_iff (db : Database) :
    db.NoEmptySet = true ↔ ∀ entry ∈ db.entries, entry.2 ≠ [] := by
  simp [Database.NoEmptySet, List.all_eq_true]

theorem noEmptySet_AddEvent (db : Database) (date : Date) (event : List Char)
    (h : db.NoEmptySet = true) : (db.AddEvent date event).NoEmptySet = true := by
  rw [noEmptySet_iff] at h ⊢
  exact allNonempty_mapIndexModify date _ (setInsert_ne_nil event) _ h

theorem noEmptySet_DeleteDate (db : Database) (date : Date)
    (h : db.NoEmptySet = true) : (db.DeleteDate date).2.NoEmptySet = true := by
  unfold Database.DeleteDate
  split
  · rw [noEmptySet_iff] at h ⊢
    exact allNonempty_mapErase date _ h
  · exact h

theorem noEmptySet_DeleteEvent (db : Database) (date : Date) (event : List Char)
    (h : db.NoEmptySet = true) : (db.DeleteEvent date event).2.NoEmptySet = true := by
  unfold Database.DeleteEvent
  split
  · rename_i events hfind
    by_cases hc : setCount event events ≠ 0
    · rw [if_pos hc]
      by_cases hemp : (setErase event events).isEmpty = true
      · simp only [hemp, if_true]
        simp only [Database.DeleteDate, mapFind_mapAtModify, hfind, Option.map_some',
          mapErase_mapAtModify]
        rw [noEmptySet_iff] at h ⊢
        exact allNonempty_mapErase date _ h
      · simp only [hemp, Bool.false_eq_true, if_false]
        rw [noEmptySet_iff] at h ⊢
        refine allNonempty_mapAtModify date _ _ events hfind ?_ h
        intro hnil
        rw [hnil] at hemp
        exact hemp rfl
    · rw [if_neg hc]
      exact h
  · exact h

theorem noEmptySet_ExecuteCommand (db : Database) (command : List Char)
    (h : db.NoEmptySet = true) : (db.ExecuteCommand command).db.NoEmptySet = true := by
  unfold Database.ExecuteCommand
  simp only
  split
  · exact h
  · split
    · exact h
    · split
      · exact h
      · split
        · exact h
        · exact noEmptySet_AddEvent _ _ _ h
    · split
      · exact h
      · split
        · split
          · exact h
          · exact noEmptySet_DeleteDate _ _ h
        · split
          · exact h
          · exact noEmptySet_DeleteEvent _ _ _ h
    · split
      · exact h
      · split
        · exact h
        · split
          · exact h
          · exact h
    · split
      · exact h
      · exact h
    · exact h

theorem noEmptySet_step (db : Database) (c : Call) (h : db.NoEmptySet = true) :
    (db.step c).NoEmptySet = true := by
  cases c with
  | addEvent date event => exact noEmptySet_AddEvent db date event h
  | deleteEvent date event => exact noEmptySet_DeleteEvent db date event h
  | deleteDate date => exact noEmptySet_DeleteDate db date h
  | executeCommand command => exact noEmptySet_ExecuteCommand db command h

theorem noEmptySet_foldl (calls : List Call) :
    ∀ db : Database, db.NoEmptySet = true →
      (calls.foldl Database.step db).NoEmptySet = true := by
  induction calls with
  | nil => intro db h; exact h
  | cons c cs ih =>
    intro db h
    exact ih (db.step c) (noEmptySet_step db c h)

/-- C8: store invariant.  In every database reached from the empty one by any sequence of
`AddEvent`, `DeleteEvent` and `DeleteDate` calls and of command lines given to
`ExecuteCommand`, no date key is present in the map with an empty set of events. -/
theorem run_noEmptySet (calls : List Call) : (Database.run calls).NoEmptySet = true :=
  noEmptySet_foldl calls Database.empty rfl

/-! ## The store: adding events -/

theorem strLt_irrefl (e : List Char) : strLt e e = false := by
  induction e with
  | nil => rfl
  | cons a as ih => simp [strLt, ih]

theorem Date_lt_irrefl (d : Date) : Date.lt d d = false := by
  simp [Date.lt]

theorem setInsert_idem (e : List Char) (xs : EventSet) :
    setInsert e (setInsert e xs) = setInsert e xs := by
  induction xs with
  | nil => simp [setInsert, strLt_irrefl]
  | cons x xs ih =>
    cases h1 : strLt x e with
    | true => simp [setInsert, h1, ih]
    | false =>
      cases h2 : strLt e x with
      | true => simp [setInsert, h1, h2, strLt_irrefl]
      | false => simp [setInsert, h1, h2]

theorem mapIndexModify_idem (date : Date) (f : EventSet → EventSet)
    (hf : ∀ v, f (f v) = f v) (m : Entries) :
    mapIndexModify date f (mapIndexModify date f m) = mapIndexModify date f m := by
  induction m with
  | nil => simp [mapIndexModify, Date_lt_irrefl, hf]
  | cons kv rest ih =>
    obtain ⟨k, v⟩ := kv
    cases h1 : Date.lt k date with
    | true => simp [mapIndexModify, h1, ih]
    | false =>
      cases h2 : Date.lt date k with
      | true => simp [mapIndexModify, h1, h2, Date_lt_irrefl, hf]
      | false => simp [mapIndexModify, h1, h2, hf]

/-- C9, at the failing input: after `AddEvent(Date(0,3,12), "a")` and
`AddEvent(Date(1,1,1), "b")` on the empty database, `Find(Date(1,1,1))` returns both
labels, `"a"` included, although `"a"` was added under a date that is not equal to
`Date(1,1,1)`: both dates have the weighted sum 408 and share one map key. -/
theorem Find_after_AddEvent_mixes_dates :
    Date.Valid ⟨0, 3, 12⟩ ∧ Date.Valid ⟨1, 1, 1⟩
    ∧ Date.eq ⟨0, 3, 12⟩ ⟨1, 1, 1⟩ = false
    ∧ ((Database.empty.AddEvent ⟨0, 3, 12⟩ "a".toList).AddEvent ⟨1, 1, 1⟩ "b".toList).Find
        ⟨1, 1, 1⟩ = .ok ["a".toList, "b".toList] := by
  decide

/-- C10: `AddEvent` is idempotent.  For every database, date and event label, adding the
pair twice leaves the same database as adding it once; in particular the set found for
the date, and so its size, is the same after the second add as after the first. -/
theorem AddEvent_idempotent (db : Database) (date : Date) (event : List Char) :
    (db.AddEvent date event).AddEvent date event = db.AddEvent date event
    ∧ ((db.AddEvent date event).AddEvent date event).Find date
        = (db.AddEvent date event).Find date
    ∧ (mapFind date ((db.AddEvent date event).AddEvent date event).entries).map List.length
        = (mapFind date (db.AddEvent date event).entries).map List.length := by
  have h : (db.AddEvent date event).AddEvent date event = db.AddEvent date event := by
    simp only [Database.AddEvent]
    rw [mapIndexModify_idem date _ (setInsert_idem event)]
  exact ⟨h, by rw [h], by rw [h]⟩

/-! ## The command line: tokens -/

theorem tokens_cons_space {c : Char} (cs : List Char) (h : isSpace c = true) :
    tokens (c :: cs) = tokens cs := by
  simp [tokens, splitTok, h]

theorem splitTok_eq (l : List Char) :
    splitTok l = (l.takeWhile (fun c => !isSpace c),
      tokens (l.dropWhile (fun c => !isSpace c))) := by
  induction l with
  | nil => rfl
  | cons c cs ih =>
    cases h : isSpace c with
    | true =>
      simp only [splitTok, h, if_true, List.takeWhile_cons, List.dropWhile_cons, Bool.not_true,
        Bool.false_eq_true, if_false, tokens_cons_space cs h]
      rfl
    | false =>
      simp only [splitTok, h, Bool.false_eq_true, if_false, List.takeWhile_cons,
        List.dropWhile_cons, Bool.not_false, if_true, ih]

theorem tokens_eq (l : List Char) :
    tokens l = if (l.takeWhile (fun c => !isSpace c)).isEmpty
      then tokens (l.dropWhile (fun c => !isSpace c))
      else l.takeWhile (fun c => !isSpace c) :: tokens (l.dropWhile (fun c => !isSpace c)) := by
  conv => lhs; unfold tokens
  rw [splitTok_eq]

theorem tokens_dropWhile_isSpace (l : List Char) :
    tokens (l.dropWhile isSpace) = tokens l := by
  induction l with
  | nil => rfl
  | cons c cs ih =>
    cases h : isSpace c with
    | true => rw [List.dropWhile_cons_of_pos h, ih, tokens_cons_space cs h]
    | false => rw [List.dropWhile_cons_of_neg (by simp [h])]

/-- The token read by `ss >> str` is the first token of the stream, and the stream it
leaves holds the other tokens. -/
theorem extractString_tokens (l : List Char) :
    (extractString l).1 = (tokens l).headD [] ∧ tokens (extractString l).2 = (tokens l).tail := by
  rw [← tokens_dropWhile_isSpace l]
  simp only [extractString]
  cases hs : l.dropWhile isSpace with
  | nil => exact ⟨rfl, rfl⟩
  | cons c r =>
    have hc : isSpace c = false := dropWhile_head_false l c r hs
    rw [tokens_eq (c :: r)]
    simp [List.takeWhile_cons, List.dropWhile_cons, hc]

theorem extractString_args (line : List Char) :
    (extractString line).1 = arg line 0
      ∧ (extractString (extractString line).2).1 = arg line 1
      ∧ (extractString (extractString (extractString line).2).2).1 = arg line 2 := by
  obtain ⟨h0, r0⟩ := extractString_tokens line
  obtain ⟨h1, r1⟩ := extractString_tokens (extractString line).2
  obtain ⟨h2, -⟩ := extractString_tokens (extractString (extractString line).2).2
  rw [r1, r0] at h2
  rw [r0] at h1
  refine ⟨?_, ?_, ?_⟩
  · rw [h0]
    unfold arg
    cases tokens line <;> rfl
  · rw [h1]
    unfold arg
    rcases tokens line with _ | ⟨a, _ | ⟨b, t⟩⟩ <;> rfl
  · rw [h2]
    unfold arg
    rcases tokens line with _ | ⟨a, _ | ⟨b, _ | ⟨c, t⟩⟩⟩ <;> rfl

theorem splitTok_append {c : Char} (l r : List Char) (h : isSpace c = true) :
    splitTok (l ++ c :: r) = ((splitTok l).1, (splitTok l).2 ++ tokens r) := by
  induction l with
  | nil =>
    simp only [List.nil_append, splitTok, h, if_true, List.nil_append]
    rfl
  | cons x xs ih =>
    have hcons : splitTok (x :: xs ++ c :: r)
        = if isSpace x then ([], if (splitTok (xs ++ c :: r)).1.isEmpty
            then (splitTok (xs ++ c :: r)).2
            else (splitTok (xs ++ c :: r)).1 :: (splitTok (xs ++ c :: r)).2)
          else (x :: (splitTok (xs ++ c :: r)).1, (splitTok (xs ++ c :: r)).2) := rfl
    rw [hcons, ih]
    cases hx : isSpace x with
    | true =>
      simp only [splitTok, hx, if_true]
      split <;> simp
    | false =>
      simp only [splitTok, hx, Bool.false_eq_true, if_false]

theorem tokens_append {c : Char} (l r : List Char) (h : isSpace c = true) :
    tokens (l ++ c :: r) = tokens l ++ tokens r := by
  unfold tokens
  rw [splitTok_append l r h]
  split <;> simp [tokens]

/-! ## The command interpreter: one lemma for each way through `ExecuteCommand` -/

theorem isEmpty_of_map_toLower {t w : List Char} (h : t.map toLower = w) (hw : w ≠ []) :
    t.isEmpty = false := by
  cases t with
  | nil => exact absurd h.symm hw
  | cons _ _ => rfl

theorem exec_empty (db : Database) (line : List Char) (h : arg line 0 = []) :
    db.ExecuteCommand line = { db := db, output := [], failure := none } := by
  obtain ⟨e0, -, -⟩ := extractString_args line
  simp only [Database.ExecuteCommand, e0, h, List.isEmpty_nil, if_true]

theorem lookup_commands_none {k : List Char} (h1 : k ≠ "add".toList) (h2 : k ≠ "del".toList)
    (h3 : k ≠ "find".toList) (h4 : k ≠ "print".toList) :
    Database.commands_map.lookup k = none := by
  have b1 : (k == "add".toList) = false := by simpa using h1
  have b2 : (k == "del".toList) = false := by simpa using h2
  have b3 : (k == "find".toList) = false := by simpa using h3
  have b4 : (k == "print".toList) = false := by simpa using h4
  simp only [Database.commands_map, List.lookup, b1, b2, b3, b4]

theorem exec_unknown (db : Database) (line : List Char) (h0 : arg line 0 ≠ [])
    (h1 : (arg line 0).map toLower ≠ "add".toList)
    (h2 : (arg line 0).map toLower ≠ "del".toList)
    (h3 : (arg line 0).map toLower ≠ "find".toList)
    (h4 : (arg line 0).map toLower ≠ "print".toList) :
    db.ExecuteCommand line =
      { db := db, output := [],
        failure := some (.invalidArgument ("Unknown command: ".toList ++ arg line 0)) } := by
  obtain ⟨e0, -, -⟩ := extractString_args line
  have hne : (arg line 0).isEmpty = false := by
    cases h : arg line 0 with
    | nil => exact absurd h h0
    | cons _ _ => rfl
  simp only [Database.ExecuteCommand, e0, hne, Bool.false_eq_true, if_false,
    lookup_commands_none h1 h2 h3 h4]

theorem exec_add (db : Database) (line : List Char)
    (h : (arg line 0).map toLower = "add".toList) :
    db.ExecuteCommand line =
      if (arg line 1).isEmpty || (arg line 2).isEmpty then
        { db := db, output := [],
          failure := some (.invalidArgument "Add requires 2 arguments (date event)".toList) }
      else
        match Date.ParseDate (arg line 1) with
        | .error e => { db := db, output := [], failure := some e }
        | .ok date => { db := db.AddEvent date (arg line 2), output := [], failure := none } := by
  obtain ⟨e0, e1, e2⟩ := extractString_args line
  have hne := isEmpty_of_map_toLower h (by decide)
  have hl : Database.commands_map.lookup "add".toList = some 0 := by decide
  simp only [Database.ExecuteCommand, e0, e1, e2, hne, Bool.false_eq_true, if_false, h, hl]

theorem exec_del (db : Database) (line : List Char)
    (h : (arg line 0).map toLower = "del".toList) :
    db.ExecuteCommand line =
      if (arg line 1).isEmpty && (arg line 2).isEmpty then
        { db := db, output := [],
          failure := some (.invalidArgument
            "Del requires 1 (date) or 2 arguments (date event)".toList) }
      else if !(arg line 1).isEmpty && (arg line 2).isEmpty then
        match Date.ParseDate (arg line 1) with
        | .error e => { db := db, output := [], failure := some e }
        | .ok date =>
          { db := (db.DeleteDate date).2,
            output := "Deleted ".toList ++ intToString (db.DeleteDate date).1
              ++ " events".toList ++ ['\n'],
            failure := none }
      else
        match Date.ParseDate (arg line 1) with
        | .error e => { db := db, output := [], failure := some e }
        | .ok date =>
          { db := (db.DeleteEvent date (arg line 2)).2,
            output := (if (db.DeleteEvent date (arg line 2)).1 then "Deleted successfully".toList
              else "Event not found".toList) ++ ['\n'],
            failure := none } := by
  obtain ⟨e0, e1, e2⟩ := extractString_args line
  have hne := isEmpty_of_map_toLower h (by decide)
  have hl : Database.commands_map.lookup "del".toList = some 1 := by decide
  simp only [Database.ExecuteCommand, e0, e1, e2, hne, Bool.false_eq_true, if_false, h, hl]

theorem exec_find (db : Database) (line : List Char)
    (h : (arg line 0).map toLower = "find".toList) :
    db.ExecuteCommand line =
      if (arg line 1).isEmpty || !(arg line 2).isEmpty then
        { db := db, output := [],
          failure := some (.invalidArgument "Find requires 1 argument (date)".toList) }
      else
        match Date.ParseDate (arg line 1) with
        | .error e => { db := db, output := [], failure := some e }
        | .ok date =>
          match db.Find date with
          | .error e => { db := db, output := [], failure := some e }
          | .ok events =>
            { db := db, output := (events.map fun e => e ++ ['\n']).flatten,
              failure := none } := by
  obtain ⟨e0, e1, e2⟩ := extractString_args line
  have hne := isEmpty_of_map_toLower h (by decide)
  have hl : Database.commands_map.lookup "find".toList = some 2 := by decide
  simp only [Database.ExecuteCommand, e0, e1, e2, hne, Bool.false_eq_true, if_false, h, hl]

theorem exec_print (db : Database) (line : List Char)
    (h : (arg line 0).map toLower = "print".toList) :
    db.ExecuteCommand line =
      if !(arg line 1).isEmpty || !(arg line 2).isEmpty then
        { db := db, output := [],
          failure := some (.invalidArgument "Print doesn't accept any argument".toList) }
      else { db := db, output := db.Print, failure := none } := by
  obtain ⟨e0, e1, e2⟩ := extractString_args line
  have hne := isEmpty_of_map_toLower h (by decide)
  have hl : Database.commands_map.lookup "print".toList = some 3 := by decide
  simp only [Database.ExecuteCommand, e0, e1, e2, hne, Bool.false_eq_true, if_false, h, hl]

/-! ## The command interpreter: tokens beyond the third -/

theorem arg_eq_take (l : List Char) (i : Nat) (hi : i < 3) :
    arg l i = ((tokens l).take 3).getD i [] := by
  simp [arg, List.getD_eq_getElem?_getD, List.getElem?_take, hi]

theorem exec_congr (db : Database) (l1 l2 : List Char) (h0 : arg l1 0 = arg l2 0)
    (h1 : arg l1 1 = arg l2 1) (h2 : arg l1 2 = arg l2 2) :
    db.ExecuteCommand l1 = db.ExecuteCommand l2 := by
  obtain ⟨a0, a1, a2⟩ := extractString_args l1
  obtain ⟨b0, b1, b2⟩ := extractString_args l2
  simp only [Database.ExecuteCommand, a0, a1, a2, b0, b1, b2, h0, h1, h2]

theorem exec_take_three (db : Database) (l1 l2 : List Char)
    (h : (tokens l1).take 3 = (tokens l2).take 3) :
    db.ExecuteCommand l1 = db.ExecuteCommand l2 := by
  apply exec_congr
  · rw [arg_eq_take l1 0 (by decide), arg_eq_take l2 0 (by decide), h]
  · rw [arg_eq_take l1 1 (by decide), arg_eq_take l2 1 (by decide), h]
  · rw [arg_eq_take l1 2 (by decide), arg_eq_take l2 2 (by decide), h]

/-- C15: the outcome of `ExecuteCommand` (database, output, failure) depends only on the
first three white-space-delimited tokens of the line, a missing token counting as the
empty string: two lines with the same first three tokens have the same outcome on every
database, and appending white space and further text to a line that has already three
tokens changes nothing.  In particular `add 2017-01-01 Jane's Birthday` stores the label
`Jane's` under 2017-01-01 and drops `Birthday`. -/
theorem ExecuteCommand_first_three_tokens (db : Database) (l1 l2 : List Char)
    (h : (tokens l1).take 3 = (tokens l2).take 3) :
    db.ExecuteCommand l1 = db.ExecuteCommand l2
    ∧ (∀ i, i < 3 → arg l1 i = ((tokens l1).take 3).getD i [])
    ∧ (∀ (line extra : List Char) (c : Char), isSpace c = true → 3 ≤ (tokens line).length →
        db.ExecuteCommand (line ++ c :: extra) = db.ExecuteCommand line)
    ∧ Database.empty.ExecuteCommand "add 2017-01-01 Jane's Birthday".toList
        = { db := { entries := [(⟨2017, 1, 1⟩, ["Jane's".toList])] }, output := [],
            failure := none } := by
  refine ⟨exec_take_three db l1 l2 h, fun i hi => arg_eq_take l1 i hi, ?_, by decide⟩
  intro line extra c hc hlen
  apply exec_take_three
  rw [tokens_append line extra hc, List.take_append_of_le_length hlen]

/-- Witness for C15: the line `add 2017-01-01 Jane's Birthday` and the same line cut after
its third token. -/
theorem ExecuteCommand_first_three_tokens_witness :
    (tokens "add 2017-01-01 Jane's Birthday".toList).take 3
        = (tokens "add 2017-01-01 Jane's".toList).take 3
    ∧ Database.empty.ExecuteCommand "add 2017-01-01 Jane's Birthday".toList
        = Database.empty.ExecuteCommand "add 2017-01-01 Jane's".toList :=
  ⟨by decide,
    (ExecuteCommand_first_three_tokens Database.empty
      "add 2017-01-01 Jane's Birthday".toList "add 2017-01-01 Jane's".toList (by decide)).1⟩

/-! ## The command interpreter: the case of the keyword -/

theorem isSpace_toLower (c : Char) : isSpace (toLower c) = isSpace c := by
  unfold toLower
  split
  · rename_i h
    have h1n : 65 ≤ c.toNat := h.1
    have h2n : c.toNat ≤ 90 := h.2
    have hc : c = Char.ofNat c.toNat := (Char.ofNat_toNat c).symm
    generalize c.toNat = n at h1n h2n hc
    subst hc
    interval_cases n <;> decide
  · rfl

theorem takeWhile_dropWhile_append (p : Char → Bool) (ts rest : List Char)
    (hts : ∀ c ∈ ts, p c = true) (hrest : ∀ c r, rest = c :: r → p c = false) :
    (ts ++ rest).takeWhile p = ts ∧ (ts ++ rest).dropWhile p = rest := by
  induction ts with
  | nil =>
    cases rest with
    | nil => simp
    | cons c r => simp [hrest c r rfl]
  | cons t ts ih =>
    have ht : p t = true := hts t (List.mem_cons_self _ _)
    obtain ⟨h1, h2⟩ := ih (fun c hc => hts c (List.mem_cons_of_mem _ hc))
    simp [ht, h1, h2]

theorem dropWhile_takeWhile_append (p : Char → Bool) (l x : List Char) :
    (l.takeWhile p ++ x).dropWhile p = x.dropWhile p := by
  induction l with
  | nil => rfl
  | cons c cs ih =>
    cases h : p c with
    | true => simp [List.takeWhile_cons, h, ih]
    | false => simp [List.takeWhile_cons, h]

/-- The tokenizer on the line with its first token in lower case: the first token is the
original one in lower case and the rest of the stream is the same. -/
theorem extractString_lowerFirstToken (line : List Char) :
    extractString (lowerFirstToken line)
      = ((extractString line).1.map toLower, (extractString line).2) := by
  have hrest : ∀ c r, (line.dropWhile isSpace).dropWhile (fun c => !isSpace c) = c :: r →
      (fun c => !isSpace c) c = false := fun c r h => dropWhile_head_false _ c r h
  have htok : ∀ c ∈ ((line.dropWhile isSpace).takeWhile fun c => !isSpace c).map toLower,
      (fun c => !isSpace c) c = true := by
    intro c hc
    obtain ⟨c0, hc0, rfl⟩ := List.mem_map.mp hc
    have := List.mem_takeWhile_imp hc0
    simpa [isSpace_toLower] using this
  obtain ⟨h1, h2⟩ := takeWhile_dropWhile_append (fun c => !isSpace c) _ _ htok hrest
  have hdrop : (lowerFirstToken line).dropWhile isSpace
      = ((line.dropWhile isSpace).takeWhile fun c => !isSpace c).map toLower
        ++ (line.dropWhile isSpace).dropWhile fun c => !isSpace c := by
    unfold lowerFirstToken
    rw [List.append_assoc, dropWhile_takeWhile_append]
    cases hs : line.dropWhile isSpace with
    | nil => rfl
    | cons c r =>
      have hc : isSpace c = false := dropWhile_head_false line c r hs
      simp [List.takeWhile_cons, List.dropWhile_cons, hc, isSpace_toLower]
  simp only [extractString, hdrop, h1, h2]

theorem arg_lowerFirstToken (line : List Char) :
    arg (lowerFirstToken line) 0 = (arg line 0).map toLower
      ∧ arg (lowerFirstToken line) 1 = arg line 1
      ∧ arg (lowerFirstToken line) 2 = arg line 2 := by
  obtain ⟨a0, a1, a2⟩ := extractString_args line
  obtain ⟨b0, b1, b2⟩ := extractString_args (lowerFirstToken line)
  rw [extractString_lowerFirstToken] at b0 b1 b2
  simp only at b0 b1 b2
  exact ⟨by rw [← b0, a0], by rw [← b1, a1], by rw [← b2, a2]⟩

/-- C16, where it fails: the failure message for the unknown keyword `Foo` is
`Unknown command: Foo`, with a capital `U`, and not `unknown command: Foo`. -/
theorem ExecuteCommand_unknown_message_counterexample :
    (Database.empty.ExecuteCommand "Foo 2017-01-01".toList).failure
        = some (.invalidArgument "Unknown command: Foo".toList)
    ∧ (Database.empty.ExecuteCommand "Foo 2017-01-01".toList).failure
        ≠ some (.invalidArgument "unknown command: Foo".toList) := by
  decide

/-- C16 (amended): the command keyword is matched case-insensitively.  For every line
whose first token lowercases to one of `add`, `del`, `find`, `print`, `ExecuteCommand`
behaves exactly as for the same line with that token written in lower case; for every
line whose non-empty first token lowercases to none of the four, `ExecuteCommand` fails
with `InvalidArgument` whose message is `Unknown command: ` (capital `U`) followed by the
token in its original case, writes nothing and leaves the database unchanged. -/
theorem ExecuteCommand_keyword_case (db : Database) (line : List Char) :
    ((arg line 0).map toLower ∈
          ["add".toList, "del".toList, "find".toList, "print".toList] →
        db.ExecuteCommand line = db.ExecuteCommand (lowerFirstToken line))
    ∧ (arg line 0 ≠ [] →
        (arg line 0).map toLower ∉
          ["add".toList, "del".toList, "find".toList, "print".toList] →
        db.ExecuteCommand line =
          { db := db, output := [],
            failure := some (.invalidArgument ("Unknown command: ".toList ++ arg line 0)) })
    ∧ (arg (lowerFirstToken line) 0 = (arg line 0).map toLower
        ∧ arg (lowerFirstToken line) 1 = arg line 1
        ∧ arg (lowerFirstToken line) 2 = arg line 2)
    ∧ lowerFirstToken " aDd 2017-01-01 Party".toList = " add 2017-01-01 Party".toList
    ∧ Database.empty.ExecuteCommand " aDd 2017-01-01 Party".toList
        = Database.empty.ExecuteCommand " add 2017-01-01 Party".toList
    ∧ Database.empty.ExecuteCommand "Foo 2017-01-01".toList
        = { db := Database.empty, output := [],
            failure := some (.invalidArgument "Unknown command: Foo".toList) } := by
  obtain ⟨l0, l1, l2⟩ := arg_lowerFirstToken line
  refine ⟨?_, ?_, ⟨l0, l1, l2⟩, by decide, by decide, by decide⟩
  · intro hmem
    simp only [List.mem_cons, List.mem_singleton, List.not_mem_nil, or_false] at hmem
    rcases hmem with h | h | h | h
    · have h' : (arg (lowerFirstToken line) 0).map toLower = "add".toList := by
        rw [l0, h]; decide
      rw [exec_add db line h, exec_add db _ h', l1, l2]
    · have h' : (arg (lowerFirstToken line) 0).map toLower = "del".toList := by
        rw [l0, h]; decide
      rw [exec_del db line h, exec_del db _ h', l1, l2]
    · have h' : (arg (lowerFirstToken line) 0).map toLower = "find".toList := by
        rw [l0, h]; decide
      rw [exec_find db line h, exec_find db _ h', l1, l2]
    · have h' : (arg (lowerFirstToken line) 0).map toLower = "print".toList := by
        rw [l0, h]; decide
      rw [exec_print db line h, exec_print db _ h', l1, l2]
  · intro h0 hnot
    simp only [List.mem_cons, List.mem_singleton, List.not_mem_nil, or_false, not_or] at hnot
    exact exec_unknown db line h0 hnot.1 hnot.2.1 hnot.2.2.1 hnot.2.2.2

/-! ## The command interpreter: failures -/

/-- The three failures `ParseDate` can end with. -/
theorem ParseDate_error_cases {s : List Char} {e : Error} (h : Date.ParseDate s = .error e) :
    e = .invalidArgument ("Wrong date format: ".toList ++ s)
      ∨ (∃ m, e = .invalidArgument ("Month value is invalid: ".toList ++ m))
      ∨ (∃ d, e = .invalidArgument ("Day value is invalid: ".toList ++ d)) := by
  have hthrow : ∀ {e : Error},
      (Date.ThrowWrongDateFormatException s : Except Error Date) = .error e →
      e = .invalidArgument ("Wrong date format: ".toList ++ s) := by
    intro e h
    simp only [Date.ThrowWrongDateFormatException, Except.error.injEq] at h
    exact h.symm
  unfold Date.ParseDate at h
  split at h
  · exact Or.inl (hthrow h)
  split at h
  · exact Or.inl (hthrow h)
  split at h
  · exact Or.inl (hthrow h)
  split at h
  · exact Or.inl (hthrow h)
  split at h
  · exact Or.inl (hthrow h)
  split at h
  · exact Or.inl (hthrow h)
  split at h
  · exact Or.inl (hthrow h)
  split at h
  · exact Or.inl (hthrow h)
  unfold Date.new at h
  split at h
  · split at h
    · exact absurd h (by simp)
    · simp only [Except.error.injEq] at h
      exact Or.inr (Or.inr ⟨_, h.symm⟩)
  · simp only [Except.error.injEq] at h
    exact Or.inr (Or.inl ⟨_, h.symm⟩)

theorem exec_failure_atomic (db : Database) (line : List Char)
    (hf : (db.ExecuteCommand line).failure ≠ none) :
    (db.ExecuteCommand line).db = db ∧ (db.ExecuteCommand line).output = [] := by
  revert hf
  by_cases h0 : arg line 0 = []
  · rw [exec_empty db line h0]
    intro hf
    exact absurd rfl hf
  by_cases h1 : (arg line 0).map toLower = "add".toList
  · rw [exec_add db line h1]
    split
    · intro _; exact ⟨rfl, rfl⟩
    · split
      · intro _; exact ⟨rfl, rfl⟩
      · intro hf; exact absurd rfl hf
  by_cases h2 : (arg line 0).map toLower = "del".toList
  · rw [exec_del db line h2]
    split
    · intro _; exact ⟨rfl, rfl⟩
    · split
      · split
        · intro _; exact ⟨rfl, rfl⟩
        · intro hf; exact absurd rfl hf
      · split
        · intro _; exact ⟨rfl, rfl⟩
        · intro hf; exact absurd rfl hf
  by_cases h3 : (arg line 0).map toLower = "find".toList
  · rw [exec_find db line h3]
    split
    · intro _; exact ⟨rfl, rfl⟩
    · split
      · intro _; exact ⟨rfl, rfl⟩
      · split
        · intro _; exact ⟨rfl, rfl⟩
        · intro hf; exact absurd rfl hf
  by_cases h4 : (arg line 0).map toLower = "print".toList
  · rw [exec_print db line h4]
    split
    · intro _; exact ⟨rfl, rfl⟩
    · intro hf; exact absurd rfl hf
  · rw [exec_unknown db line h0 h1 h2 h3 h4]
    intro _; exact ⟨rfl, rfl⟩

theorem prefix_ne (p q s : List Char) (hp : 2 ≤ p.length) (h : p.take 2 ≠ q.take 2) :
    p ++ s ≠ q := by
  intro heq
  apply h
  have := congrArg (List.take 2) heq
  rwa [List.take_append_of_le_length hp] at this

/-- A failure of `ParseDate` is none of the four arity failures. -/
theorem parse_error_not_arity {s : List Char} {e : Error} (h : Date.ParseDate s = .error e) :
    ∀ k ∈ ["add".toList, "del".toList, "find".toList, "print".toList],
      e ≠ .invalidArgument (arityMessage k) := by
  intro k hk heq
  simp only [List.mem_cons, List.mem_singleton, List.not_mem_nil, or_false] at hk
  rcases ParseDate_error_cases h with he | ⟨m, he⟩ | ⟨d, he⟩ <;>
    rw [he, Error.invalidArgument.injEq] at heq <;>
    rcases hk with rfl | rfl | rfl | rfl <;>
    exact prefix_ne _ _ _ (by decide) (by decide) heq

theorem not_found_not_arity :
    ∀ k ∈ ["add".toList, "del".toList, "find".toList, "print".toList],
      Error.invalidArgument "Date not found".toList ≠ .invalidArgument (arityMessage k) := by
  decide

/-- C17: argument arity is validated per command before anything else.  For a recognised
command (`add`, `del`, `find`, `print` in any case), `ExecuteCommand` fails with the arity
failure of that command, whatever the first argument looks like, with no output and the
database untouched, exactly when: `add` has an empty first or second argument; `del` has
both empty; `find` has an empty first or a non-empty second argument; `print` has a
non-empty first or second argument.  In every other case no arity failure is raised: a
failure, if any, is the failure of `ParseDate` on the first argument or the failure of
`Find`. -/
theorem ExecuteCommand_arity (db : Database) (line : List Char)
    (hk : (arg line 0).map toLower ∈
      ["add".toList, "del".toList, "find".toList, "print".toList]) :
    (arityRefused ((arg line 0).map toLower) (arg line 1) (arg line 2) = true →
        db.ExecuteCommand line =
          { db := db, output := [],
            failure := some (.invalidArgument (arityMessage ((arg line 0).map toLower))) })
    ∧ (arityRefused ((arg line 0).map toLower) (arg line 1) (arg line 2) = false →
        (∀ k ∈ ["add".toList, "del".toList, "find".toList, "print".toList],
          (db.ExecuteCommand line).failure ≠ some (.invalidArgument (arityMessage k)))
        ∧ ∀ e, (db.ExecuteCommand line).failure = some e →
            Date.ParseDate (arg line 1) = .error e
              ∨ (∃ date, Date.ParseDate (arg line 1) = .ok date ∧ db.Find date = .error e))
    ∧ Database.empty.ExecuteCommand "find 2017-13-45 extra".toList
        = { db := Database.empty, output := [],
            failure := some (.invalidArgument "Find requires 1 argument (date)".toList) } := by
  have key : arityRefused ((arg line 0).map toLower) (arg line 1) (arg line 2) = false →
      ∀ e, (db.ExecuteCommand line).failure = some e →
        Date.ParseDate (arg line 1) = .error e
          ∨ (∃ date, Date.ParseDate (arg line 1) = .ok date ∧ db.Find date = .error e) := by
    intro hr e
    simp only [List.mem_cons, List.mem_singleton, List.not_mem_nil, or_false] at hk
    rcases hk with h | h | h | h
    · rw [exec_add db line h]
      rw [h] at hr
      have hr' : ((arg line 1).isEmpty || (arg line 2).isEmpty) = false := hr
      rw [hr']
      simp only [Bool.false_eq_true, if_false]
      split
      · rename_i e' hp
        intro he
        simp only [Option.some.injEq] at he
        exact Or.inl (he ▸ hp)
      · intro he
        exact absurd he (by simp)
    · rw [exec_del db line h]
      rw [h] at hr
      have hr' : ((arg line 1).isEmpty && (arg line 2).isEmpty) = false := hr
      rw [hr']
      simp only [Bool.false_eq_true, if_false]
      split
      · split
        · rename_i e' hp
          intro he
          simp only [Option.some.injEq] at he
          exact Or.inl (he ▸ hp)
        · intro he
          exact absurd he (by simp)
      · split
        · rename_i e' hp
          intro he
          simp only [Option.some.injEq] at he
          exact Or.inl (he ▸ hp)
        · intro he
          exact absurd he (by simp)
    · rw [exec_find db line h]
      rw [h] at hr
      have hr' : ((arg line 1).isEmpty || !(arg line 2).isEmpty) = false := hr
      rw [hr']
      simp only [Bool.false_eq_true, if_false]
      split
      · rename_i e' hp
        intro he
        simp only [Option.some.injEq] at he
        exact Or.inl (he ▸ hp)
      · rename_i date hp
        split
        · rename_i e' hfind
          intro he
          simp only [Option.some.injEq] at he
          exact Or.inr ⟨date, hp, he ▸ hfind⟩
        · intro he
          exact absurd he (by simp)
    · rw [exec_print db line h]
      rw [h] at hr
      have hr' : (!(arg line 1).isEmpty || !(arg line 2).isEmpty) = false := hr
      rw [hr']
      simp only [Bool.false_eq_true, if_false]
      intro he
      exact absurd he (by simp)
  refine ⟨?_, ?_, by decide⟩
  · intro hr
    simp only [List.mem_cons, List.mem_singleton, List.not_mem_nil, or_false] at hk
    rcases hk with h | h | h | h
    · rw [exec_add db line h]
      rw [h] at hr ⊢
      have hr' : ((arg line 1).isEmpty || (arg line 2).isEmpty) = true := hr
      rw [if_pos hr']
      rfl
    · rw [exec_del db line h]
      rw [h] at hr ⊢
      have hr' : ((arg line 1).isEmpty && (arg line 2).isEmpty) = true := hr
      rw [if_pos hr']
      rfl
    · rw [exec_find db line h]
      rw [h] at hr ⊢
      have hr' : ((arg line 1).isEmpty || !(arg line 2).isEmpty) = true := hr
      rw [if_pos hr']
      rfl
    · rw [exec_print db line h]
      rw [h] at hr ⊢
      have hr' : (!(arg line 1).isEmpty || !(arg line 2).isEmpty) = true := hr
      rw [if_pos hr']
      rfl
  · intro hr
    refine ⟨?_, key hr⟩
    intro k hkmem hfail
    rcases key hr _ hfail with hp | ⟨date, -, hfind⟩
    · exact parse_error_not_arity hp k hkmem rfl
    · unfold Database.Find at hfind
      split at hfind
      · exact absurd hfind (by simp)
      · simp only [Except.error.injEq] at hfind
        exact not_found_not_arity k hkmem hfind

/-- Witness for C17: the line `find 2017-01-01 extra`, a `find` with two arguments. -/
theorem ExecuteCommand_arity_witness :
    (arg "find 2017-01-01 extra".toList 0).map toLower ∈
        ["add".toList, "del".toList, "find".toList, "print".toList]
    ∧ arityRefused ((arg "find 2017-01-01 extra".toList 0).map toLower)
        (arg "find 2017-01-01 extra".toList 1) (arg "find 2017-01-01 extra".toList 2) = true
    ∧ Database.empty.ExecuteCommand "find 2017-01-01 extra".toList
        = { db := Database.empty, output := [],
            failure := some (.invalidArgument (arityMessage
              ((arg "find 2017-01-01 extra".toList 0).map toLower))) } :=
  ⟨by decide, by decide,
    (ExecuteCommand_arity Database.empty "find 2017-01-01 extra".toList (by decide)).1
      (by decide)⟩

theorem exec_parse_failure (db : Database) (line : List Char) (e : Error)
    (hk : (arg line 0).map toLower ∈ ["add".toList, "del".toList, "find".toList])
    (hr : arityRefused ((arg line 0).map toLower) (arg line 1) (arg line 2) = false)
    (hp : Date.ParseDate (arg line 1) = .error e) :
    db.ExecuteCommand line = { db := db, output := [], failure := some e } := by
  simp only [List.mem_cons, List.mem_singleton, List.not_mem_nil, or_false] at hk
  rcases hk with h | h | h
  · rw [exec_add db line h]
    rw [h] at hr
    have hr' : ((arg line 1).isEmpty || (arg line 2).isEmpty) = false := hr
    rw [hr', hp]
    rfl
  · rw [exec_del db line h]
    rw [h] at hr
    have hr' : ((arg line 1).isEmpty && (arg line 2).isEmpty) = false := hr
    rw [hr', hp]
    simp only [Bool.false_eq_true, if_false]
    split <;> rfl
  · rw [exec_find db line h]
    rw [h] at hr
    have hr' : ((arg line 1).isEmpty || !(arg line 2).isEmpty) = false := hr
    rw [hr', hp]
    rfl

/-- C19: atomicity on failure.  For every database and every input line, if
`ExecuteCommand` fails then the database after the call is the one before it and the call
has written nothing; and a failure of `ParseDate` on the date argument of `add`, `del` or
`find` (arity being right) is, unchanged, the failure of the call.  The five causes are
shown on a database holding one event: unknown command, wrong arity, malformed date,
month and day out of range, date not found. -/
theorem ExecuteCommand_failure_atomic (db : Database) (line : List Char) :
    ((db.ExecuteCommand line).failure ≠ none →
        (db.ExecuteCommand line).db = db ∧ (db.ExecuteCommand line).output = [])
    ∧ (∀ e, (arg line 0).map toLower ∈ ["add".toList, "del".toList, "find".toList] →
        arityRefused ((arg line 0).map toLower) (arg line 1) (arg line 2) = false →
        Date.ParseDate (arg line 1) = .error e →
        db.ExecuteCommand line = { db := db, output := [], failure := some e })
    ∧ Database.ExecuteCommand { entries := [(⟨2017, 1, 1⟩, ["x".toList])] } "foo".toList
        = { db := { entries := [(⟨2017, 1, 1⟩, ["x".toList])] }, output := [],
            failure := some (.invalidArgument "Unknown command: foo".toList) }
    ∧ Database.ExecuteCommand { entries := [(⟨2017, 1, 1⟩, ["x".toList])] }
          "add 2017-01-01".toList
        = { db := { entries := [(⟨2017, 1, 1⟩, ["x".toList])] }, output := [],
            failure := some (.invalidArgument
              "Add requires 2 arguments (date event)".toList) }
    ∧ Database.ExecuteCommand { entries := [(⟨2017, 1, 1⟩, ["x".toList])] }
          "del 2017/01/01 x".toList
        = { db := { entries := [(⟨2017, 1, 1⟩, ["x".toList])] }, output := [],
            failure := some (.invalidArgument "Wrong date format: 2017/01/01".toList) }
    ∧ Database.ExecuteCommand { entries := [(⟨2017, 1, 1⟩, ["x".toList])] }
          "add 2017-13-01 y".toList
        = { db := { entries := [(⟨2017, 1, 1⟩, ["x".toList])] }, output := [],
            failure := some (.invalidArgument "Month value is invalid: 13".toList) }
    ∧ Database.ExecuteCommand { entries := [(⟨2017, 1, 1⟩, ["x".toList])] }
          "del 2017-01-32".toList
        = { db := { entries := [(⟨2017, 1, 1⟩, ["x".toList])] }, output := [],
            failure := some (.invalidArgument "Day value is invalid: 32".toList) }
    ∧ Database.ExecuteCommand { entries := [(⟨2017, 1, 1⟩, ["x".toList])] }
          "find 2017-01-02".toList
        = { db := { entries := [(⟨2017, 1, 1⟩, ["x".toList])] }, output := [],
            failure := some (.invalidArgument "Date not found".toList) } := by
  refine ⟨exec_failure_atomic db line, fun e hk hr hp => exec_parse_failure db line e hk hr hp,
    by decide, by decide, by decide, by decide, by decide, by decide⟩

/-! ## class Date: overflow in the ordering -/

/-- C20, where it fails.  For the valid date of year `INT_MAX` the weighted sum in `int`
arithmetic is not the unbounded one (`2147483647 * 365` wraps).  And for the valid dates
`Date(0,1,1)` and `Date(-5883517,1,1)`, `operator<` says that the first is less than the
second, because `-5883517 * 365` wraps to a positive value, while the unbounded sums say
the opposite. -/
theorem Date_lt_int_arithmetic_counterexample :
    Date.Valid ⟨2147483647, 1, 1⟩ ∧ Date.Valid ⟨-5883517, 1, 1⟩ ∧ Date.Valid ⟨0, 1, 1⟩
    ∧ InInt32 2147483647 ∧ InInt32 (-5883517)
    ∧ Date.weight ⟨2147483647, 1, 1⟩ ≠ (2147483647 : Int) * 365 + 1 * 12 + 1 * 31
    ∧ Date.lt ⟨0, 1, 1⟩ ⟨-5883517, 1, 1⟩ = true
    ∧ ¬ ((0 : Int) * 365 + 1 * 12 + 1 * 31 < (-5883517) * 365 + 1 * 12 + 1 * 31) := by
  decide

/-- C20 (amended): for every two valid dates whose years lie between -5883516 and
5883513, the comparison computed by `operator<` in `int` arithmetic gives the same result
as comparing the weighted sums `year*365 + month*12 + day*31` in unbounded integers, and
the `int` value of each sum is the unbounded one.  The range cannot be widened: the valid
dates 5883514-12-31 and -5883517-01-01 overflow. -/
theorem Date_lt_no_overflow_in_range (a b : Date) (ha : Date.Valid a) (hb : Date.Valid b)
    (hya : -5883516 ≤ a.year ∧ a.year ≤ 5883513)
    (hyb : -5883516 ≤ b.year ∧ b.year ≤ 5883513) :
    a.weight = a.year * 365 + a.month * 12 + a.day * 31
    ∧ b.weight = b.year * 365 + b.month * 12 + b.day * 31
    ∧ (Date.lt a b = true
        ↔ a.year * 365 + a.month * 12 + a.day * 31 < b.year * 365 + b.month * 12 + b.day * 31)
    ∧ Date.weight ⟨5883514, 12, 31⟩ ≠ (5883514 : Int) * 365 + 12 * 12 + 31 * 31
    ∧ mulInt32 (-5883517) 365 ≠ (-5883517 : Int) * 365 := by
  obtain ⟨_, ⟨ham1, ham2⟩, ⟨had1, had2⟩⟩ := ha
  obtain ⟨_, ⟨hbm1, hbm2⟩, ⟨hbd1, hbd2⟩⟩ := hb
  have hwa : a.weight = a.year * 365 + a.month * 12 + a.day * 31 := by
    rw [weight_eq_wrap]
    apply wrapInt32_of_inInt32
    unfold InInt32
    omega
  have hwb : b.weight = b.year * 365 + b.month * 12 + b.day * 31 := by
    rw [weight_eq_wrap]
    apply wrapInt32_of_inInt32
    unfold InInt32
    omega
  refine ⟨hwa, hwb, ?_, by decide, by decide⟩
  simp [Date.lt, hwa, hwb]

/-- Witness for C20 (amended): the dates 5883513-12-31 and -5883516-01-01, at the two ends
of the range. -/
theorem Date_lt_no_overflow_in_range_witness :
    Date.Valid ⟨5883513, 12, 31⟩ ∧ Date.Valid ⟨-5883516, 1, 1⟩
    ∧ (Date.lt ⟨5883513, 12, 31⟩ ⟨-5883516, 1, 1⟩ = true
        ↔ (5883513 : Int) * 365 + 12 * 12 + 31 * 31 < (-5883516) * 365 + 1 * 12 + 1 * 31) :=
  ⟨by decide, by decide,
    (Date_lt_no_overflow_in_range ⟨5883513, 12, 31⟩ ⟨-5883516, 1, 1⟩ (by decide) (by decide)
      (by decide) (by decide)).2.2.1⟩

/-! ## The two orders of the store -/

theorem Date_lt_trans {a b c : Date} (h1 : Date.lt a b = true) (h2 : Date.lt b c = true) :
    Date.lt a c = true := by
  simp only [Date.lt, decide_eq_true_eq] at h1 h2 ⊢
  omega

theorem Date_lt_of_not_lt_of_lt {a b c : Date} (h1 : Date.lt b a = false)
    (h2 : Date.lt b c = true) : Date.lt a c = true := by
  simp only [Date.lt, decide_eq_true_eq, decide_eq_false_iff_not] at h1 h2 ⊢
  omega

theorem Date_lt_of_lt_of_not_lt {a b c : Date} (h1 : Date.lt a b = true)
    (h2 : Date.lt c b = false) : Date.lt a c = true := by
  simp only [Date.lt, decide_eq_true_eq, decide_eq_false_iff_not] at h1 h2 ⊢
  omega

theorem Date_ne_of_lt {a b : Date} (h : Date.lt a b = true) : a ≠ b := by
  rintro rfl
  rw [Date_lt_irrefl] at h
  exact absurd h (by decide)

theorem strLt_nil_right (a : List Char) : strLt a [] = false := by
  cases a <;> rfl

theorem strLt_cons_iff (a b : Char) (as bs : List Char) :
    strLt (a :: as) (b :: bs) = true ↔ a < b ∨ (a = b ∧ strLt as bs = true) := by
  rcases lt_trichotomy a b with h | h | h
  · simp [strLt, h]
  · subst h
    simp [strLt]
  · have h1 : ¬ a < b := lt_asymm h
    have h2 : a ≠ b := ne_of_gt h
    simp [strLt, h, h1, h2]

theorem strLt_trans : ∀ {a b c : List Char}, strLt a b = true → strLt b c = true →
    strLt a c = true := by
  intro a
  induction a with
  | nil =>
    intro b c h1 h2
    cases c with
    | nil => rw [strLt_nil_right] at h2; exact absurd h2 (by decide)
    | cons _ _ => rfl
  | cons x xs ih =>
    intro b c h1 h2
    cases b with
    | nil => rw [strLt_nil_right] at h1; exact absurd h1 (by decide)
    | cons y ys =>
      cases c with
      | nil => rw [strLt_nil_right] at h2; exact absurd h2 (by decide)
      | cons z zs =>
        rw [strLt_cons_iff] at h1 h2 ⊢
        rcases h1 with h1 | ⟨rfl, h1⟩
        · rcases h2 with h2 | ⟨rfl, h2⟩
          · exact Or.inl (lt_trans h1 h2)
          · exact Or.inl h1
        · rcases h2 with h2 | ⟨rfl, h2⟩
          · exact Or.inl h2
          · exact Or.inr ⟨rfl, ih h1 h2⟩

theorem strLt_eq_of_not_lt : ∀ {a b : List Char}, strLt a b = false → strLt b a = false →
    a = b := by
  intro a
  induction a with
  | nil =>
    intro b h1 _
    cases b with
    | nil => rfl
    | cons _ _ => exact absurd h1 (by simp [strLt])
  | cons x xs ih =>
    intro b h1 h2
    cases b with
    | nil => exact absurd h2 (by simp [strLt])
    | cons y ys =>
      have n1 : ¬ (x < y ∨ (x = y ∧ strLt xs ys = true)) := by
        rw [← strLt_cons_iff, h1]; decide
      have n2 : ¬ (y < x ∨ (y = x ∧ strLt ys xs = true)) := by
        rw [← strLt_cons_iff, h2]; decide
      rw [not_or] at n1 n2
      have hxy : x = y := by
        rcases lt_trichotomy x y with h | h | h
        · exact absurd h n1.1
        · exact h
        · exact absurd h n2.1
      subst hxy
      have e1 : strLt xs ys = false := by
        cases h : strLt xs ys with
        | true => exact absurd ⟨rfl, h⟩ n1.2
        | false => rfl
      have e2 : strLt ys xs = false := by
        cases h : strLt ys xs with
        | true => exact absurd ⟨rfl, h⟩ n2.2
        | false => rfl
      rw [ih e1 e2]

theorem strLt_ne {a b : List Char} (h : strLt a b = true) : a ≠ b := by
  rintro rfl
  rw [strLt_irrefl] at h
  exact absurd h (by decide)

/-! ## std::set on ordered lists -/

theorem setCount_ne_zero_iff (e : List Char) (v : EventSet)
    (hv : v.Pairwise (fun a b => strLt a b = true)) : setCount e v ≠ 0 ↔ e ∈ v := by
  induction v with
  | nil => simp [setCount]
  | cons x xs ih =>
    rw [List.pairwise_cons] at hv
    cases h1 : strLt x e with
    | true =>
      have hne : e ≠ x := (strLt_ne h1).symm
      simp only [setCount, h1, if_true, List.mem_cons, hne, false_or]
      exact ih hv.2
    | false =>
      cases h2 : strLt e x with
      | true =>
        have hne : e ≠ x := strLt_ne h2
        have hnot : e ∉ xs := fun hmem => strLt_ne (strLt_trans h2 (hv.1 e hmem)) rfl
        simp [setCount, h1, h2, hne, hnot]
      | false =>
        have heq : x = e := strLt_eq_of_not_lt h1 h2
        subst heq
        simp [setCount, h1]

theorem not_mem_of_lt_head {e x : List Char} {xs : EventSet}
    (hx : ∀ y ∈ xs, strLt x y = true) (h : strLt e x = true ∨ e = x) : e ∉ xs := by
  intro hmem
  rcases h with h | rfl
  · exact strLt_ne (strLt_trans h (hx e hmem)) rfl
  · exact strLt_ne (hx e hmem) rfl

theorem setErase_eq_erase (e : List Char) (v : EventSet)
    (hv : v.Pairwise (fun a b => strLt a b = true)) : setErase e v = v.erase e := by
  induction v with
  | nil => rfl
  | cons x xs ih =>
    rw [List.pairwise_cons] at hv
    cases h1 : strLt x e with
    | true =>
      have hne : x ≠ e := strLt_ne h1
      simp [setErase, h1, List.erase_cons, hne, ih hv.2]
    | false =>
      cases h2 : strLt e x with
      | true =>
        have hne : x ≠ e := (strLt_ne h2).symm
        have hnot : e ∉ xs := not_mem_of_lt_head hv.1 (Or.inl h2)
        simp [setErase, h1, h2, List.erase_cons, hne, List.erase_of_not_mem hnot]
      | false =>
        have heq : x = e := strLt_eq_of_not_lt h1 h2
        subst heq
        simp [setErase, h1]

theorem nodup_of_sorted (v : EventSet) (hv : v.Pairwise (fun a b => strLt a b = true)) :
    v.Nodup :=
  hv.imp fun h => strLt_ne h

theorem setErase_sublist (e : List Char) (v : EventSet) : (setErase e v).Sublist v := by
  induction v with
  | nil => exact List.Sublist.refl _
  | cons x xs ih =>
    unfold setErase
    split
    · exact ih.cons₂ x
    · split
      · exact List.Sublist.refl _
      · exact List.sublist_cons_self x xs

theorem mem_setInsert (e y : List Char) (v : EventSet) :
    y ∈ setInsert e v ↔ y = e ∨ y ∈ v := by
  induction v with
  | nil => simp [setInsert]
  | cons x xs ih =>
    cases h1 : strLt x e with
    | true =>
      simp only [setInsert, h1, if_true, List.mem_cons, ih]
      tauto
    | false =>
      cases h2 : strLt e x with
      | true => simp [setInsert, h1, h2]
      | false =>
        have heq : x = e := strLt_eq_of_not_lt h1 h2
        subst heq
        simp [setInsert, h1]

theorem setInsert_sorted (e : List Char) (v : EventSet)
    (hv : v.Pairwise (fun a b => strLt a b = true)) :
    (setInsert e v).Pairwise (fun a b => strLt a b = true) := by
  induction v with
  | nil => simp [setInsert]
  | cons x xs ih =>
    rw [List.pairwise_cons] at hv
    cases h1 : strLt x e with
    | true =>
      simp only [setInsert, h1, if_true, List.pairwise_cons]
      refine ⟨?_, ih hv.2⟩
      intro y hy
      rcases (mem_setInsert e y xs).mp hy with rfl | hy
      · exact h1
      · exact hv.1 y hy
    | false =>
      cases h2 : strLt e x with
      | true =>
        simp only [setInsert, h1, h2, if_true, Bool.false_eq_true, if_false,
          List.pairwise_cons]
        refine ⟨?_, hv.1, hv.2⟩
        intro y hy
        rcases List.mem_cons.mp hy with rfl | hy
        · exact h2
        · exact strLt_trans h2 (hv.1 y hy)
      | false =>
        simp only [setInsert, h1, h2, Bool.false_eq_true, if_false, List.pairwise_cons]
        exact hv

/-! ## std::map on ordered lists -/

theorem lookup_none_of_forall_ne (d : Date) (m : Entries) (h : ∀ entry ∈ m, entry.1 ≠ d) :
    m.lookup d = none := by
  induction m with
  | nil => rfl
  | cons kv rest ih =>
    obtain ⟨k, v⟩ := kv
    have hk : k ≠ d := h (k, v) (List.mem_cons_self _ _)
    have hb : (d == k) = false := by simpa using fun heq : d = k => hk heq.symm
    rw [List.lookup_cons, hb]
    exact ih fun e he => h e (List.mem_cons_of_mem _ he)

theorem mem_of_lookup_eq_some (d : Date) (m : Entries) (v : EventSet)
    (h : m.lookup d = some v) : (d, v) ∈ m := by
  induction m with
  | nil => simp at h
  | cons kv rest ih =>
    obtain ⟨k, w⟩ := kv
    rw [List.lookup_cons] at h
    cases hb : (d == k) with
    | true =>
      rw [hb] at h
      simp only [Option.some.injEq] at h
      have : d = k := by simpa using hb
      rw [this, h]
      exact List.mem_cons_self _ _
    | false =>
      rw [hb] at h
      exact List.mem_cons_of_mem _ (ih h)

theorem mapFind_none_of_forall_gt (d : Date) (m : Entries)
    (h : ∀ entry ∈ m, Date.lt d entry.1 = true) : mapFind d m = none := by
  cases m with
  | nil => rfl
  | cons kv rest =>
    obtain ⟨k, v⟩ := kv
    have hk : Date.lt d k = true := h (k, v) (List.mem_cons_self _ _)
    have hk' : Date.lt k d = false := by
      simp only [Date.lt, decide_eq_true_eq, decide_eq_false_iff_not] at hk ⊢
      omega
    simp [mapFind, hk, hk']

/-- On an ordered map in which no other key is equivalent to `d`, the look-up of the map
finds the entry whose key is `d`. -/
theorem mapFind_eq_lookup (d : Date) (m : Entries)
    (hm : m.Pairwise (fun a b => Date.lt a.1 b.1 = true))
    (hc : ∀ entry ∈ m, Date.lt entry.1 d = false → Date.lt d entry.1 = false → entry.1 = d) :
    mapFind d m = m.lookup d := by
  induction m with
  | nil => rfl
  | cons kv rest ih =>
    obtain ⟨k, v⟩ := kv
    rw [List.pairwise_cons] at hm
    have hc' : ∀ entry ∈ rest, Date.lt entry.1 d = false → Date.lt d entry.1 = false →
        entry.1 = d := fun e he => hc e (List.mem_cons_of_mem _ he)
    cases h1 : Date.lt k d with
    | true =>
      have hb : (d == k) = false := by simpa using fun heq : d = k => Date_ne_of_lt h1 heq.symm
      rw [List.lookup_cons, hb]
      simp only [mapFind, h1, if_true]
      exact ih hm.2 hc'
    | false =>
      cases h2 : Date.lt d k with
      | true =>
        have hb : (d == k) = false := by simpa using Date_ne_of_lt h2
        rw [List.lookup_cons, hb]
        simp only [mapFind, h1, h2, Bool.false_eq_true, if_false, if_true]
        symm
        apply lookup_none_of_forall_ne
        intro e he
        exact (Date_ne_of_lt (Date_lt_trans h2 (hm.1 e he))).symm
      | false =>
        have hk : k = d := hc (k, v) (List.mem_cons_self _ _) h1 h2
        subst hk
        simp [mapFind, h1, List.lookup_cons]

theorem mapErase_eq_filter (d : Date) (m : Entries)
    (hm : m.Pairwise (fun a b => Date.lt a.1 b.1 = true))
    (hc : ∀ entry ∈ m, Date.lt entry.1 d = false → Date.lt d entry.1 = false → entry.1 = d) :
    mapErase d m = m.filter (fun entry => !decide (entry.1 = d)) := by
  induction m with
  | nil => rfl
  | cons kv rest ih =>
    obtain ⟨k, v⟩ := kv
    rw [List.pairwise_cons] at hm
    have hc' : ∀ entry ∈ rest, Date.lt entry.1 d = false → Date.lt d entry.1 = false →
        entry.1 = d := fun e he => hc e (List.mem_cons_of_mem _ he)
    cases h1 : Date.lt k d with
    | true =>
      have hne : k ≠ d := Date_ne_of_lt h1
      simp [mapErase, h1, List.filter_cons, hne, ih hm.2 hc']
    | false =>
      have hgt : ∀ e ∈ rest, Date.lt d e.1 = true → e.1 ≠ d :=
        fun e _ h => (Date_ne_of_lt h).symm
      cases h2 : Date.lt d k with
      | true =>
        have hne : k ≠ d := (Date_ne_of_lt h2).symm
        have hall : rest.filter (fun entry => !decide (entry.1 = d)) = rest := by
          rw [List.filter_eq_self]
          intro e he
          have := hgt e he (Date_lt_trans h2 (hm.1 e he))
          simpa using this
        simp [mapErase, h1, h2, List.filter_cons, hne, hall]
      | false =>
        have hk : k = d := hc (k, v) (List.mem_cons_self _ _) h1 h2
        subst hk
        have hall : rest.filter (fun entry => !decide (entry.1 = k)) = rest := by
          rw [List.filter_eq_self]
          intro e he
          have := (Date_ne_of_lt (hm.1 e he)).symm
          simpa using this
        simp [mapErase, h1, List.filter_cons, hall]

theorem mapAtModify_eq_map (d : Date) (f : EventSet → EventSet) (m : Entries)
    (hm : m.Pairwise (fun a b => Date.lt a.1 b.1 = true))
    (hc : ∀ entry ∈ m, Date.lt entry.1 d = false → Date.lt d entry.1 = false → entry.1 = d) :
    mapAtModify d f m
      = m.map (fun entry => if entry.1 = d then (entry.1, f entry.2) else entry) := by
  induction m with
  | nil => rfl
  | cons kv rest ih =>
    obtain ⟨k, v⟩ := kv
    rw [List.pairwise_cons] at hm
    have hc' : ∀ entry ∈ rest, Date.lt entry.1 d = false → Date.lt d entry.1 = false →
        entry.1 = d := fun e he => hc e (List.mem_cons_of_mem _ he)
    cases h1 : Date.lt k d with
    | true =>
      have hne : k ≠ d := Date_ne_of_lt h1
      simp [mapAtModify, h1, hne, ih hm.2 hc']
    | false =>
      have hself : ∀ l : Entries, (∀ e ∈ l, e.1 ≠ d) →
          l.map (fun entry => if entry.1 = d then (entry.1, f entry.2) else entry) = l := by
        intro l hl
        conv => rhs; rw [← List.map_id l]
        apply List.map_congr_left
        intro e he
        simp [hl e he]
      cases h2 : Date.lt d k with
      | true =>
        have hne : k ≠ d := (Date_ne_of_lt h2).symm
        have hall := hself rest fun e he =>
          (Date_ne_of_lt (Date_lt_trans h2 (hm.1 e he))).symm
        simp [mapAtModify, h1, h2, hne, hall]
      | false =>
        have hk : k = d := hc (k, v) (List.mem_cons_self _ _) h1 h2
        subst hk
        have hall := hself rest fun e he => (Date_ne_of_lt (hm.1 e he)).symm
        simp [mapAtModify, h1, hall]

theorem lookup_filter_ne (d k : Date) (m : Entries) :
    (m.filter (fun entry => !decide (entry.1 = d))).lookup k
      = if k = d then none else m.lookup k := by
  induction m with
  | nil => simp
  | cons kv rest ih =>
    obtain ⟨x, v⟩ := kv
    by_cases hx : x = d
    · have hf : List.filter (fun entry : Date × EventSet => !decide (entry.1 = d))
          ((x, v) :: rest)
          = List.filter (fun entry => !decide (entry.1 = d)) rest := by
        simp [List.filter_cons, hx]
      rw [hf, ih]
      by_cases hk : k = d
      · simp [hk]
      · have hb : (k == x) = false := by simpa [hx] using hk
        simp [hk, List.lookup_cons, hb]
    · have hf : List.filter (fun entry : Date × EventSet => !decide (entry.1 = d))
          ((x, v) :: rest)
          = (x, v) :: List.filter (fun entry => !decide (entry.1 = d)) rest := by
        simp [List.filter_cons, hx]
      rw [hf, List.lookup_cons, List.lookup_cons, ih]
      cases hb : (k == x) with
      | true =>
        have hkx : k = x := by simpa using hb
        have hk : k ≠ d := hkx ▸ hx
        simp [hk]
      | false =>
        by_cases hk : k = d
        · simp [hk]
        · simp [hk]

theorem lookup_map_modify (d k : Date) (f : EventSet → EventSet) (m : Entries) :
    (m.map (fun entry => if entry.1 = d then (entry.1, f entry.2) else entry)).lookup k
      = if k = d then (m.lookup d).map f else m.lookup k := by
  induction m with
  | nil => simp
  | cons kv rest ih =>
    obtain ⟨x, v⟩ := kv
    by_cases hx : x = d
    · subst hx
      by_cases hk : k = x
      · subst hk
        simp [List.lookup_cons]
      · have hb : (k == x) = false := by simpa using hk
        simp [List.lookup_cons, hb, ih, hk]
    · by_cases hk : k = d
      · subst hk
        have hb : (k == x) = false := by simpa using fun heq : k = x => hx heq.symm
        simp [List.lookup_cons, hb, ih, hx]
      · simp [List.lookup_cons, ih, hk, hx]

/-! ## The order of the store is kept by every operation -/

theorem mem_mapIndexModify {d : Date} {f : EventSet → EventSet} {m : Entries}
    {entry : Date × EventSet} (h : entry ∈ mapIndexModify d f m) :
    entry = (d, f []) ∨ entry ∈ m ∨ ∃ v, (entry.1, v) ∈ m ∧ entry.2 = f v := by
  induction m with
  | nil =>
    simp only [mapIndexModify, List.mem_singleton] at h
    exact Or.inl h
  | cons kv rest ih =>
    obtain ⟨k, v⟩ := kv
    cases h1 : Date.lt k d with
    | true =>
      simp only [mapIndexModify, h1, if_true, List.mem_cons] at h
      rcases h with rfl | h
      · exact Or.inr (Or.inl (List.mem_cons_self _ _))
      · rcases ih h with h | h | ⟨w, hw, he⟩
        · exact Or.inl h
        · exact Or.inr (Or.inl (List.mem_cons_of_mem _ h))
        · exact Or.inr (Or.inr ⟨w, List.mem_cons_of_mem _ hw, he⟩)
    | false =>
      cases h2 : Date.lt d k with
      | true =>
        simp only [mapIndexModify, h1, h2, if_true, Bool.false_eq_true, if_false,
          List.mem_cons] at h
        rcases h with rfl | rfl | h
        · exact Or.inl rfl
        · exact Or.inr (Or.inl (List.mem_cons_self _ _))
        · exact Or.inr (Or.inl (List.mem_cons_of_mem _ h))
      | false =>
        simp only [mapIndexModify, h1, h2, Bool.false_eq_true, if_false, List.mem_cons] at h
        rcases h with rfl | h
        · exact Or.inr (Or.inr ⟨v, List.mem_cons_self _ _, rfl⟩)
        · exact Or.inr (Or.inl (List.mem_cons_of_mem _ h))

theorem sorted_mapIndexModify (d : Date) (f : EventSet → EventSet) (m : Entries)
    (hm : m.Pairwise (fun a b => Date.lt a.1 b.1 = true)) :
    (mapIndexModify d f m).Pairwise (fun a b => Date.lt a.1 b.1 = true) := by
  induction m with
  | nil => simp [mapIndexModify]
  | cons kv rest ih =>
    obtain ⟨k, v⟩ := kv
    rw [List.pairwise_cons] at hm
    cases h1 : Date.lt k d with
    | true =>
      simp only [mapIndexModify, h1, if_true, List.pairwise_cons]
      refine ⟨?_, ih hm.2⟩
      intro e he
      rcases mem_mapIndexModify he with rfl | he | ⟨w, hw, -⟩
      · exact h1
      · exact hm.1 e he
      · exact hm.1 (e.1, w) hw
    | false =>
      cases h2 : Date.lt d k with
      | true =>
        simp only [mapIndexModify, h1, h2, if_true, Bool.false_eq_true, if_false,
          List.pairwise_cons]
        refine ⟨?_, hm.1, hm.2⟩
        intro e he
        rcases List.mem_cons.mp he with rfl | he
        · exact h2
        · exact Date_lt_trans h2 (hm.1 e he)
      | false =>
        simp only [mapIndexModify, h1, h2, Bool.false_eq_true, if_false, List.pairwise_cons]
        exact ⟨fun e he => hm.1 e he, hm.2⟩

theorem mapErase_sublist (d : Date) (m : Entries) : (mapErase d m).Sublist m := by
  induction m with
  | nil => exact List.Sublist.refl _
  | cons kv rest ih =>
    obtain ⟨k, v⟩ := kv
    unfold mapErase
    split
    · exact ih.cons₂ _
    · split
      · exact List.Sublist.refl _
      · exact List.sublist_cons_self _ _

theorem mem_mapAtModify {d : Date} {f : EventSet → EventSet} {m : Entries}
    {entry : Date × EventSet} (h : entry ∈ mapAtModify d f m) :
    entry ∈ m ∨ ∃ v, (entry.1, v) ∈ m ∧ entry.2 = f v := by
  induction m with
  | nil => simp [mapAtModify] at h
  | cons kv rest ih =>
    obtain ⟨k, v⟩ := kv
    cases h1 : Date.lt k d with
    | true =>
      simp only [mapAtModify, h1, if_true, List.mem_cons] at h
      rcases h with rfl | h
      · exact Or.inl (List.mem_cons_self _ _)
      · rcases ih h with h | ⟨w, hw, he⟩
        · exact Or.inl (List.mem_cons_of_mem _ h)
        · exact Or.inr ⟨w, List.mem_cons_of_mem _ hw, he⟩
    | false =>
      cases h2 : Date.lt d k with
      | true =>
        simp only [mapAtModify, h1, h2, if_true, Bool.false_eq_true, if_false] at h
        exact Or.inl h
      | false =>
        simp only [mapAtModify, h1, h2, Bool.false_eq_true, if_false, List.mem_cons] at h
        rcases h with rfl | h
        · exact Or.inr ⟨v, List.mem_cons_self _ _, rfl⟩
        · exact Or.inl (List.mem_cons_of_mem _ h)

theorem sorted_mapAtModify (d : Date) (f : EventSet → EventSet) (m : Entries)
    (hm : m.Pairwise (fun a b => Date.lt a.1 b.1 = true)) :
    (mapAtModify d f m).Pairwise (fun a b => Date.lt a.1 b.1 = true) := by
  induction m with
  | nil => simp [mapAtModify]
  | cons kv rest ih =>
    obtain ⟨k, v⟩ := kv
    rw [List.pairwise_cons] at hm
    cases h1 : Date.lt k d with
    | true =>
      simp only [mapAtModify, h1, if_true, List.pairwise_cons]
      refine ⟨?_, ih hm.2⟩
      intro e he
      rcases mem_mapAtModify he with he | ⟨w, hw, -⟩
      · exact hm.1 e he
      · exact hm.1 (e.1, w) hw
    | false =>
      cases h2 : Date.lt d k with
      | true =>
        simp only [mapAtModify, h1, h2, if_true, Bool.false_eq_true, if_false,
          List.pairwise_cons]
        exact hm
      | false =>
        simp only [mapAtModify, h1, h2, Bool.false_eq_true, if_false, List.pairwise_cons]
        exact ⟨fun e he => hm.1 e he, hm.2⟩

theorem wellFormed_AddEvent (db : Database) (date : Date) (event : List Char)
    (h : db.WellFormed) : (db.AddEvent date event).WellFormed := by
  refine ⟨sorted_mapIndexModify date _ _ h.1, ?_⟩
  intro entry he
  rcases mem_mapIndexModify he with rfl | he | ⟨v, hv, heq⟩
  · exact setInsert_sorted event [] List.Pairwise.nil
  · exact h.2 entry he
  · rw [heq]
    exact setInsert_sorted event v (h.2 _ hv)

theorem wellFormed_DeleteDate (db : Database) (date : Date) (h : db.WellFormed) :
    (db.DeleteDate date).2.WellFormed := by
  unfold Database.DeleteDate
  split
  · exact ⟨h.1.sublist (mapErase_sublist date _),
      fun entry he => h.2 entry ((mapErase_sublist date _).subset he)⟩
  · exact h

theorem wellFormed_DeleteEvent (db : Database) (date : Date) (event : List Char)
    (h : db.WellFormed) : (db.DeleteEvent date event).2.WellFormed := by
  have h1 : Database.WellFormed { entries := mapAtModify date (setErase event) db.entries } := by
    refine ⟨sorted_mapAtModify date _ _ h.1, ?_⟩
    intro entry he
    rcases mem_mapAtModify he with he | ⟨v, hv, heq⟩
    · exact h.2 entry he
    · rw [heq]
      exact (h.2 _ hv).sublist (setErase_sublist event v)
  unfold Database.DeleteEvent
  split
  · split
    · split
      · exact wellFormed_DeleteDate _ date h1
      · exact h1
    · exact h
  · exact h

/-- Whatever the three member functions that change `entries` keep true, `ExecuteCommand`
keeps true. -/
theorem ExecuteCommand_preserves (P : Database → Prop)
    (hadd : ∀ db date event, P db → P (db.AddEvent date event))
    (hdd : ∀ db date, P db → P (db.DeleteDate date).2)
    (hde : ∀ db date event, P db → P (db.DeleteEvent date event).2)
    (db : Database) (command : List Char) (h : P db) : P (db.ExecuteCommand command).db := by
  unfold Database.ExecuteCommand
  simp only
  split
  · exact h
  · split
    · exact h
    · split
      · exact h
      · split
        · exact h
        · exact hadd _ _ _ h
    · split
      · exact h
      · split
        · split
          · exact h
          · exact hdd _ _ h
        · split
          · exact h
          · exact hde _ _ _ h
    · split
      · exact h
      · split
        · exact h
        · split
          · exact h
          · exact h
    · split
      · exact h
      · exact h
    · exact h

theorem wellFormed_step (db : Database) (c : Call) (h : db.WellFormed) :
    (db.step c).WellFormed := by
  cases c with
  | addEvent date event => exact wellFormed_AddEvent db date event h
  | deleteEvent date event => exact wellFormed_DeleteEvent db date event h
  | deleteDate date => exact wellFormed_DeleteDate db date h
  | executeCommand command =>
    exact ExecuteCommand_preserves Database.WellFormed wellFormed_AddEvent
      wellFormed_DeleteDate wellFormed_DeleteEvent db command h

theorem wellFormed_foldl (calls : List Call) :
    ∀ db : Database, db.WellFormed → (calls.foldl Database.step db).WellFormed := by
  induction calls with
  | nil => intro db h; exact h
  | cons c cs ih =>
    intro db h
    exact ih (db.step c) (wellFormed_step db c h)

/-- Every database reached from the empty one keeps the order of `std::map` and of
`std::set`. -/
theorem wellFormed_run (calls : List Call) : (Database.run calls).WellFormed :=
  wellFormed_foldl calls Database.empty
    ⟨List.Pairwise.nil, fun _ h => absurd h (by simp [Database.empty])⟩

/-! ## The store: what the operations do to the entry of a date -/

theorem find_eq_entryOf (db : Database) (d : Date) (hwf : db.WellFormed)
    (hnc : db.NoCollision d) : mapFind d db.entries = db.entryOf d :=
  mapFind_eq_lookup d db.entries hwf.1 hnc

theorem sorted_of_entryOf (db : Database) (d : Date) (v : EventSet) (hwf : db.WellFormed)
    (h : db.entryOf d = some v) : v.Pairwise (fun a b => strLt a b = true) :=
  hwf.2 (d, v) (mem_of_lookup_eq_some d db.entries v h)

theorem Find_eq (db : Database) (d : Date) (hwf : db.WellFormed) (hnc : db.NoCollision d) :
    db.Find d = match db.entryOf d with
      | some v => .ok v
      | none => .error (.invalidArgument "Date not found".toList) := by
  unfold Database.Find
  rw [find_eq_entryOf db d hwf hnc]

theorem DeleteDate_eq (db : Database) (d : Date) (hwf : db.WellFormed)
    (hnc : db.NoCollision d) :
    db.DeleteDate d = match db.entryOf d with
      | some v => (wrapInt32 (v.length : Int),
          { entries := db.entries.filter (fun entry => !decide (entry.1 = d)) })
      | none => (0, db) := by
  unfold Database.DeleteDate
  rw [find_eq_entryOf db d hwf hnc, mapErase_eq_filter d db.entries hwf.1 hnc]

theorem map_erase_congr (d : Date) (e : List Char) (m : Entries)
    (hs : ∀ entry ∈ m, entry.2.Pairwise (fun a b => strLt a b = true)) :
    m.map (fun entry => if entry.1 = d then (entry.1, setErase e entry.2) else entry)
      = m.map (fun entry => if entry.1 = d then (entry.1, entry.2.erase e) else entry) := by
  apply List.map_congr_left
  intro entry he
  rw [setErase_eq_erase e entry.2 (hs entry he)]

theorem DeleteEvent_eq (db : Database) (d : Date) (e : List Char) (hwf : db.WellFormed)
    (hnc : db.NoCollision d) :
    db.DeleteEvent d e = match db.entryOf d with
      | some v =>
        if e ∈ v then
          (true, if v.erase e = []
            then Database.mk (db.entries.filter (fun entry => !decide (entry.1 = d)))
            else Database.mk (db.entries.map
              (fun entry => if entry.1 = d then (entry.1, entry.2.erase e) else entry)))
        else (false, db)
      | none => (false, db) := by
  unfold Database.DeleteEvent
  rw [find_eq_entryOf db d hwf hnc]
  cases hv : db.entryOf d with
  | none => rfl
  | some v =>
    have hsorted := sorted_of_entryOf db d v hwf hv
    have hcount := setCount_ne_zero_iff e v hsorted
    by_cases hmem : e ∈ v
    · have hc : setCount e v ≠ 0 := hcount.mpr hmem
      simp only [hc, hmem, if_true, ne_eq, not_false_eq_true]
      rw [setErase_eq_erase e v hsorted]
      by_cases hemp : v.erase e = []
      · simp only [hemp, List.isEmpty_nil, if_true]
        simp only [Database.DeleteDate, mapFind_mapAtModify, mapErase_mapAtModify,
          find_eq_entryOf db d hwf hnc, hv, Option.map_some']
        rw [mapErase_eq_filter d db.entries hwf.1 hnc]
      · have hemp' : (v.erase e).isEmpty = false := by
          cases h : v.erase e with
          | nil => exact absurd h hemp
          | cons _ _ => rfl
        simp only [hemp', hemp, Bool.false_eq_true, if_false]
        rw [mapAtModify_eq_map d _ db.entries hwf.1 hnc, map_erase_congr d e db.entries hwf.2]
    · have hc : ¬ setCount e v ≠ 0 := fun h => hmem (hcount.mp h)
      simp only [hc, hmem, if_false]

theorem noCollision_of_subset (db db2 : Database) (d : Date) (hnc : db.NoCollision d)
    (hsub : ∀ entry ∈ db2.entries, ∃ v, (entry.1, v) ∈ db.entries) : db2.NoCollision d := by
  intro entry he h1 h2
  obtain ⟨v, hv⟩ := hsub entry he
  exact hnc (entry.1, v) hv h1 h2

theorem entryOf_filter (db : Database) (d k : Date) :
    Database.entryOf { entries := db.entries.filter (fun entry => !decide (entry.1 = d)) } k
      = if k = d then none else db.entryOf k :=
  lookup_filter_ne d k db.entries

theorem Find_filter_fails (db : Database) (d : Date) (hwf : db.WellFormed)
    (hnc : db.NoCollision d) :
    Database.Find { entries := db.entries.filter (fun entry => !decide (entry.1 = d)) } d
      = .error (.invalidArgument "Date not found".toList) := by
  have hwf2 : Database.WellFormed
      { entries := db.entries.filter (fun entry => !decide (entry.1 = d)) } :=
    ⟨hwf.1.sublist (List.filter_sublist _),
      fun entry he => hwf.2 entry ((List.filter_sublist _).subset he)⟩
  have hnc2 : Database.NoCollision
      { entries := db.entries.filter (fun entry => !decide (entry.1 = d)) } d :=
    noCollision_of_subset db _ d hnc
      fun entry he => ⟨entry.2, (List.filter_sublist _).subset he⟩
  rw [Find_eq _ d hwf2 hnc2, entryOf_filter, if_pos rfl]

/-! ## The store: Find -/

/-- C13, where it fails.  The message of the failure is `Date not found`, with a capital
`D`, not `date not found`.  And after `AddEvent(Date(0,3,12), "a")` the store has no entry
for `Date(1,1,1)`, yet `Find(Date(1,1,1))` succeeds and returns the labels of 0000-03-12:
both dates have the weighted sum 408. -/
theorem Find_counterexample :
    Database.empty.entryOf ⟨2017, 1, 1⟩ = none
    ∧ Database.empty.Find ⟨2017, 1, 1⟩ = .error (.invalidArgument "Date not found".toList)
    ∧ Database.empty.Find ⟨2017, 1, 1⟩ ≠ .error (.invalidArgument "date not found".toList)
    ∧ (Database.empty.AddEvent ⟨0, 3, 12⟩ "a".toList).entryOf ⟨1, 1, 1⟩ = none
    ∧ (Database.empty.AddEvent ⟨0, 3, 12⟩ "a".toList).Find ⟨1, 1, 1⟩ = .ok ["a".toList] := by
  decide

/-- C13 (amended): for every store (keys and labels in the order of `std::map` and
`std::set`) and every date `d` such that no other date of the store has the weighted sum
of `d`, `Find(d)` fails with `InvalidArgument`, message `Date not found`, if and only if
the store has no entry for `d`, and otherwise returns exactly the set of labels stored
for `d`.  The empty store and a date whose events were all deleted (by `DeleteEvent` or
by `DeleteDate`) are such cases of failure, and a `find` command leaves the store
unchanged. -/
theorem Find_spec (db : Database) (d : Date) (hwf : db.WellFormed) (hnc : db.NoCollision d) :
    (db.Find d = .error (.invalidArgument "Date not found".toList) ↔ db.entryOf d = none)
    ∧ ((∃ e, db.Find d = .error e) ↔ db.entryOf d = none)
    ∧ (∀ v, db.entryOf d = some v → db.Find d = .ok v)
    ∧ Database.empty.Find d = .error (.invalidArgument "Date not found".toList)
    ∧ (∀ e, ((Database.empty.AddEvent d e).DeleteEvent d e).2.Find d
        = .error (.invalidArgument "Date not found".toList))
    ∧ (∀ e, ((Database.empty.AddEvent d e).DeleteDate d).2.Find d
        = .error (.invalidArgument "Date not found".toList))
    ∧ (∀ line, (arg line 0).map toLower = "find".toList → (db.ExecuteCommand line).db = db) := by
  have hfind := Find_eq db d hwf hnc
  refine ⟨?_, ?_, ?_, rfl, ?_, ?_, ?_⟩
  · rw [hfind]
    cases db.entryOf d <;> simp
  · rw [hfind]
    cases db.entryOf d <;> simp
  · intro v hv
    rw [hfind, hv]
  · intro e
    simp [Database.AddEvent, Database.empty, mapIndexModify, Database.DeleteEvent, mapFind,
      Date_lt_irrefl, setInsert, setCount, setErase, strLt_irrefl, mapAtModify,
      Database.DeleteDate, mapErase, Database.Find]
  · intro e
    simp [Database.AddEvent, Database.empty, mapIndexModify, mapFind,
      Date_lt_irrefl, Database.DeleteDate, mapErase, Database.Find]
  · intro line h
    rw [exec_find db line h]
    split
    · rfl
    · split
      · rfl
      · split <;> rfl

/-- Witness for C13 (amended): a store with two dates, asked for the first. -/
theorem Find_spec_witness :
    Database.WellFormed { entries := [(⟨2017, 1, 1⟩, ["a".toList, "b".toList]),
        (⟨2017, 1, 2⟩, ["c".toList])] }
    ∧ Database.NoCollision { entries := [(⟨2017, 1, 1⟩, ["a".toList, "b".toList]),
        (⟨2017, 1, 2⟩, ["c".toList])] } ⟨2017, 1, 1⟩
    ∧ Database.Find { entries := [(⟨2017, 1, 1⟩, ["a".toList, "b".toList]),
        (⟨2017, 1, 2⟩, ["c".toList])] } ⟨2017, 1, 1⟩ = .ok ["a".toList, "b".toList] :=
  ⟨by decide, by decide,
    (Find_spec { entries := [(⟨2017, 1, 1⟩, ["a".toList, "b".toList]),
        (⟨2017, 1, 2⟩, ["c".toList])] } ⟨2017, 1, 1⟩ (by decide) (by decide)).2.2.1
      ["a".toList, "b".toList] (by decide)⟩

/-! ## The store: DeleteDate -/

theorem entryOf_modify (db : Database) (d k : Date) (f : EventSet → EventSet) :
    Database.entryOf (Database.mk (db.entries.map
      (fun entry => if entry.1 = d then (entry.1, f entry.2) else entry))) k
      = if k = d then (db.entryOf d).map f else db.entryOf k :=
  lookup_map_modify d k f db.entries

theorem lookup_ne_none_of_mem (d : Date) (m : Entries) (entry : Date × EventSet)
    (hmem : entry ∈ m) (hed : entry.1 = d) : m.lookup d ≠ none := by
  induction m with
  | nil => simp at hmem
  | cons kv rest ih =>
    obtain ⟨k, v⟩ := kv
    rw [List.lookup_cons]
    cases hb : (d == k) with
    | true => simp
    | false =>
      have hkd : d ≠ k := by simpa using hb
      rcases List.mem_cons.mp hmem with h | h
      · rw [h] at hed
        exact absurd hed.symm hkd
      · exact ih h

/-- C12.  At the failing input: after `AddEvent(Date(0,3,12), "a")` the store holds no
label for `Date(1,1,1)`, yet `DeleteDate(Date(1,1,1))` returns 1 and removes the entry of
the other date 0000-03-12 (both dates have the weighted sum 408).  Apart from such
collisions the claim holds: in every store in the order of `std::map` and `std::set`, for
every date `d` whose weighted sum no other stored date has, `DeleteDate(d)` returns the
number of labels held for `d` (as an `int`, so exact below 2^31), afterwards `d` has no
entry, `Find(d)` fails, every other date keeps its entry, and when `d` had no entry the
store is unchanged and the count is 0. -/
theorem DeleteDate_spec :
    (Database.empty.AddEvent ⟨0, 3, 12⟩ "a".toList).labelCount ⟨1, 1, 1⟩ = 0
    ∧ (Database.empty.AddEvent ⟨0, 3, 12⟩ "a".toList).entryOf ⟨0, 3, 12⟩ = some ["a".toList]
    ∧ (Database.empty.AddEvent ⟨0, 3, 12⟩ "a".toList).DeleteDate ⟨1, 1, 1⟩
        = (1, { entries := [] })
    ∧ ((Database.empty.AddEvent ⟨0, 3, 12⟩ "a".toList).DeleteDate ⟨1, 1, 1⟩).2.entryOf
        ⟨0, 3, 12⟩ = none
    ∧ Database.DeleteDate { entries := [(⟨2017, 1, 1⟩, ["a".toList, "b".toList]),
          (⟨2017, 1, 2⟩, ["c".toList])] } ⟨2017, 1, 1⟩
        = (2, { entries := [(⟨2017, 1, 2⟩, ["c".toList])] })
    ∧ ∀ (db : Database) (d : Date), db.WellFormed → db.NoCollision d →
        (db.DeleteDate d).1 = wrapInt32 (db.labelCount d : Int)
        ∧ (db.labelCount d < 2147483648 → (db.DeleteDate d).1 = (db.labelCount d : Int))
        ∧ (db.DeleteDate d).2.entries
            = db.entries.filter (fun entry => !decide (entry.1 = d))
        ∧ (db.DeleteDate d).2.entryOf d = none
        ∧ (db.DeleteDate d).2.Find d = .error (.invalidArgument "Date not found".toList)
        ∧ (∀ k, k ≠ d → (db.DeleteDate d).2.entryOf k = db.entryOf k)
        ∧ (db.entryOf d = none → db.DeleteDate d = (0, db)) := by
  refine ⟨by decide, by decide, by decide, by decide, by decide, ?_⟩
  intro db d hwf hnc
  have heq := DeleteDate_eq db d hwf hnc
  have hcount : (db.DeleteDate d).1 = wrapInt32 (db.labelCount d : Int) := by
    rw [heq]
    unfold Database.labelCount
    cases db.entryOf d <;> rfl
  have hentries : (db.DeleteDate d).2.entries
      = db.entries.filter (fun entry => !decide (entry.1 = d)) := by
    rw [heq]
    cases hv : db.entryOf d with
    | some v => rfl
    | none =>
      symm
      rw [List.filter_eq_self]
      intro entry he
      have hne : entry.1 ≠ d :=
        fun hed => lookup_ne_none_of_mem d db.entries entry he hed hv
      simpa using hne
  have hdb : (db.DeleteDate d).2
      = { entries := db.entries.filter (fun entry => !decide (entry.1 = d)) } := by
    cases h : (db.DeleteDate d).2
    rw [h] at hentries
    simp only at hentries
    rw [hentries]
  refine ⟨hcount, ?_, hentries, ?_, ?_, ?_, ?_⟩
  · intro hlt
    rw [hcount]
    apply wrapInt32_of_inInt32
    unfold InInt32
    omega
  · rw [hdb, entryOf_filter, if_pos rfl]
  · rw [hdb]
    exact Find_filter_fails db d hwf hnc
  · intro k hk
    rw [hdb, entryOf_filter, if_neg hk]
  · intro hnone
    rw [heq, hnone]

/-! ## The store: DeleteEvent -/

/-- C11.  At the failing input: after `AddEvent(Date(0,3,12), "a")` the store has no entry
for `Date(1,1,1)`, yet `DeleteEvent(Date(1,1,1), "a")` returns true and removes the label
and the entry of the other date 0000-03-12 (both dates have the weighted sum 408).  Apart
from such collisions the claim holds: in every store in the order of `std::map` and
`std::set`, for every date `d` whose weighted sum no other stored date has and every label
`e`, `DeleteEvent(d, e)` returns true if and only if the store has an entry for `d` whose
set contains `e`; then the set of `d` loses `e` and nothing else, every other date keeps
its entry, and when `e` was the last label the entry of `d` is gone and `Find(d)` fails;
when it returns false the store is unchanged. -/
theorem DeleteEvent_spec :
    (Database.empty.AddEvent ⟨0, 3, 12⟩ "a".toList).entryOf ⟨1, 1, 1⟩ = none
    ∧ (Database.empty.AddEvent ⟨0, 3, 12⟩ "a".toList).entryOf ⟨0, 3, 12⟩ = some ["a".toList]
    ∧ (Database.empty.AddEvent ⟨0, 3, 12⟩ "a".toList).DeleteEvent ⟨1, 1, 1⟩ "a".toList
        = (true, { entries := [] })
    ∧ ((Database.empty.AddEvent ⟨0, 3, 12⟩ "a".toList).DeleteEvent ⟨1, 1, 1⟩
        "a".toList).2.entryOf ⟨0, 3, 12⟩ = none
    ∧ Database.DeleteEvent { entries := [(⟨2017, 1, 1⟩, ["a".toList, "b".toList]),
          (⟨2017, 1, 2⟩, ["c".toList])] } ⟨2017, 1, 1⟩ "a".toList
        = (true, { entries := [(⟨2017, 1, 1⟩, ["b".toList]), (⟨2017, 1, 2⟩, ["c".toList])] })
    ∧ Database.DeleteEvent { entries := [(⟨2017, 1, 1⟩, ["a".toList, "b".toList]),
          (⟨2017, 1, 2⟩, ["c".toList])] } ⟨2017, 1, 2⟩ "c".toList
        = (true, { entries := [(⟨2017, 1, 1⟩, ["a".toList, "b".toList])] })
    ∧ ∀ (db : Database) (d : Date) (e : List Char), db.WellFormed → db.NoCollision d →
        ((db.DeleteEvent d e).1 = true ↔ ∃ v, db.entryOf d = some v ∧ e ∈ v)
        ∧ (∀ v, db.entryOf d = some v → e ∈ v →
            (db.DeleteEvent d e).2.entryOf d
                = (if v.erase e = [] then none else some (v.erase e))
            ∧ (∀ y, y ∈ v.erase e ↔ y ≠ e ∧ y ∈ v)
            ∧ (∀ k, k ≠ d → (db.DeleteEvent d e).2.entryOf k = db.entryOf k)
            ∧ (v.erase e = [] →
                (db.DeleteEvent d e).2.Find d
                  = .error (.invalidArgument "Date not found".toList)))
        ∧ ((db.DeleteEvent d e).1 = false → (db.DeleteEvent d e).2 = db) := by
  refine ⟨by decide, by decide, by decide, by decide, by decide, by decide, ?_⟩
  intro db d e hwf hnc
  have heq := DeleteEvent_eq db d e hwf hnc
  cases hv : db.entryOf d with
  | none =>
    rw [hv] at heq
    simp only at heq
    rw [heq]
    refine ⟨by simp, ?_, fun _ => rfl⟩
    intro v h
    exact absurd h (by simp)
  | some v =>
    rw [hv] at heq
    simp only at heq
    by_cases hmem : e ∈ v
    · rw [if_pos hmem] at heq
      rw [heq]
      refine ⟨?_, ?_, ?_⟩
      · simp only [true_iff]
        exact ⟨v, rfl, hmem⟩
      · intro v' hv' _
        simp only [Option.some.injEq] at hv'
        subst hv'
        have hnodup := nodup_of_sorted v (sorted_of_entryOf db d v hwf hv)
        by_cases hemp : v.erase e = []
        · simp only [hemp, if_true]
          refine ⟨?_, ?_, ?_, ?_⟩
          · rw [entryOf_filter, if_pos rfl]
          · intro y
            rw [← hemp]
            exact hnodup.mem_erase_iff
          · intro k hk
            rw [entryOf_filter, if_neg hk]
          · intro _
            exact Find_filter_fails db d hwf hnc
        · simp only [hemp, if_false]
          refine ⟨?_, ?_, ?_, ?_⟩
          · refine (entryOf_modify db d d (fun s => List.erase s e)).trans ?_
            rw [if_pos rfl, hv]
            rfl
          · intro y
            exact hnodup.mem_erase_iff
          · intro k hk
            refine (entryOf_modify db d k (fun s => List.erase s e)).trans ?_
            rw [if_neg hk]
          · intro h
            exact h.elim
      · intro h
        exact absurd h (by simp)
    · rw [if_neg hmem] at heq
      rw [heq]
      refine ⟨?_, ?_, fun _ => rfl⟩
      · simp only [Bool.false_eq_true, false_iff, not_exists, not_and]
        intro v' hv'
        simp only [Option.some.injEq] at hv'
        subst hv'
        exact hmem
      · intro v' hv' hmem'
        simp only [Option.some.injEq] at hv'
        subst hv'
        exact absurd hmem' hmem

/-! ## The command interpreter: del -/

theorem DeleteDate_fst (db : Database) (d : Date) (hwf : db.WellFormed)
    (hnc : db.NoCollision d) (hlt : db.labelCount d < 2147483648) :
    (db.DeleteDate d).1 = (db.labelCount d : Int) := by
  have h : (db.DeleteDate d).1 = wrapInt32 (db.labelCount d : Int) := by
    rw [DeleteDate_eq db d hwf hnc]
    unfold Database.labelCount
    cases db.entryOf d <;> rfl
  rw [h]
  apply wrapInt32_of_inInt32
  unfold InInt32
  omega

theorem DeleteDate_entryOf (db : Database) (d : Date) (hwf : db.WellFormed)
    (hnc : db.NoCollision d) : (db.DeleteDate d).2.entryOf d = none := by
  rw [DeleteDate_eq db d hwf hnc]
  cases hv : db.entryOf d with
  | none => exact hv
  | some v => exact (entryOf_filter db d d).trans (if_pos rfl)

theorem DeleteEvent_fst_iff (db : Database) (d : Date) (e : List Char) (hwf : db.WellFormed)
    (hnc : db.NoCollision d) :
    (db.DeleteEvent d e).1 = true ↔ ∃ v, db.entryOf d = some v ∧ e ∈ v := by
  rw [DeleteEvent_eq db d e hwf hnc]
  cases hv : db.entryOf d with
  | none => simp
  | some v =>
    by_cases hmem : e ∈ v
    · simp [hmem]
    · simp [hmem]

theorem DeleteEvent_unchanged (db : Database) (d : Date) (e : List Char)
    (h : (db.DeleteEvent d e).1 = false) : (db.DeleteEvent d e).2 = db := by
  unfold Database.DeleteEvent at h ⊢
  split
  · rename_i events hfind
    rw [hfind] at h
    simp only at h
    split
    · rename_i hc
      rw [if_pos hc] at h
      split at h <;> exact absurd h (by simp)
    · rfl
  · rfl

theorem intToString_natCast (n : Nat) : intToString (n : Int) = natDigits n := by
  simp [intToString]

/-- C18.  At the failing input: after `AddEvent(Date(0,3,12), "a")` the store holds no
label for 0001-01-01, yet the line `del 1-1-1` writes `Deleted 1 events` and the line
`del 1-1-1 a` writes `Deleted successfully`, and each empties the entry of the other date
0000-03-12 (both dates have the weighted sum 408).  Apart from such collisions the claim
holds: in every store in the order of `std::map` and `std::set`, for every `del` line
whose date argument parses to a date `d` whose weighted sum no other stored date has:
with only a date the output is the one line `Deleted N events`, `N` the number of labels
held for `d` (below 2^31), and afterwards `d` has no entry; with a date and an event the
output is `Deleted successfully` when the store held the event under `d`, which is then
removed, and `Event not found` otherwise, the store being then unchanged. -/
theorem del_command_spec :
    (Database.empty.AddEvent ⟨0, 3, 12⟩ "a".toList).labelCount ⟨1, 1, 1⟩ = 0
    ∧ (Database.empty.AddEvent ⟨0, 3, 12⟩ "a".toList).entryOf ⟨1, 1, 1⟩ = none
    ∧ Date.ParseDate "1-1-1".toList = .ok ⟨1, 1, 1⟩
    ∧ (Database.empty.AddEvent ⟨0, 3, 12⟩ "a".toList).ExecuteCommand "del 1-1-1".toList
        = { db := { entries := [] }, output := "Deleted 1 events\n".toList, failure := none }
    ∧ (Database.empty.AddEvent ⟨0, 3, 12⟩ "a".toList).ExecuteCommand "del 1-1-1 a".toList
        = { db := { entries := [] }, output := "Deleted successfully\n".toList,
            failure := none }
    ∧ Database.ExecuteCommand { entries := [(⟨2017, 1, 1⟩, ["a".toList, "b".toList]),
          (⟨2017, 1, 2⟩, ["c".toList])] } "del 2017-01-01".toList
        = { db := { entries := [(⟨2017, 1, 2⟩, ["c".toList])] },
            output := "Deleted 2 events\n".toList, failure := none }
    ∧ Database.ExecuteCommand { entries := [(⟨2017, 1, 1⟩, ["a".toList, "b".toList]),
          (⟨2017, 1, 2⟩, ["c".toList])] } "del 2017-01-03 c".toList
        = { db := { entries := [(⟨2017, 1, 1⟩, ["a".toList, "b".toList]),
              (⟨2017, 1, 2⟩, ["c".toList])] },
            output := "Event not found\n".toList, failure := none }
    ∧ ∀ (db : Database) (line : List Char) (d : Date), db.WellFormed →
        (arg line 0).map toLower = "del".toList → Date.ParseDate (arg line 1) = .ok d →
        db.NoCollision d →
        (arg line 2 = [] → db.labelCount d < 2147483648 →
            db.ExecuteCommand line =
              { db := (db.DeleteDate d).2,
                output := "Deleted ".toList ++ natDigits (db.labelCount d)
                  ++ " events".toList ++ ['\n'],
                failure := none }
            ∧ (db.DeleteDate d).2.entryOf d = none)
        ∧ (arg line 2 ≠ [] → (∃ v, db.entryOf d = some v ∧ arg line 2 ∈ v) →
            db.ExecuteCommand line =
              { db := (db.DeleteEvent d (arg line 2)).2,
                output := "Deleted successfully".toList ++ ['\n'], failure := none }
            ∧ ∀ v, db.entryOf d = some v →
                (db.DeleteEvent d (arg line 2)).2.entryOf d
                  = if v.erase (arg line 2) = [] then none else some (v.erase (arg line 2)))
        ∧ (arg line 2 ≠ [] → ¬ (∃ v, db.entryOf d = some v ∧ arg line 2 ∈ v) →
            db.ExecuteCommand line =
              { db := db, output := "Event not found".toList ++ ['\n'], failure := none }) := by
  refine ⟨by decide, by decide, by decide, by decide, by decide, by decide, by decide, ?_⟩
  intro db line d hwf hk hp hnc
  have h1 : (arg line 1).isEmpty = false := by
    cases h : arg line 1 with
    | nil =>
      rw [h] at hp
      have hnil : Date.ParseDate []
          = .error (.invalidArgument "Wrong date format: ".toList) := by decide
      rw [hnil] at hp
      exact absurd hp (by simp)
    | cons _ _ => rfl
  have hexec := exec_del db line hk
  rw [hp, h1] at hexec
  simp only [Bool.false_and, Bool.false_eq_true, if_false, Bool.not_false, Bool.true_and]
    at hexec
  refine ⟨?_, ?_, ?_⟩
  · intro h2 hlt
    rw [hexec, h2]
    simp only [List.isEmpty_nil, if_true]
    rw [DeleteDate_fst db d hwf hnc hlt, intToString_natCast]
    exact ⟨rfl, DeleteDate_entryOf db d hwf hnc⟩
  · intro h2 hholds
    have h2' : (arg line 2).isEmpty = false := by
      cases h : arg line 2 with
      | nil => exact absurd h h2
      | cons _ _ => rfl
    have hflag := (DeleteEvent_fst_iff db d (arg line 2) hwf hnc).mpr hholds
    rw [hexec, h2']
    simp only [Bool.false_eq_true, if_false, hflag, if_true]
    refine ⟨trivial, ?_⟩
    intro v hv
    obtain ⟨v', hv', hmem⟩ := hholds
    rw [hv] at hv'
    simp only [Option.some.injEq] at hv'
    subst hv'
    rw [DeleteEvent_eq db d (arg line 2) hwf hnc, hv]
    simp only [hmem, if_true]
    by_cases hemp : v.erase (arg line 2) = []
    · simp only [hemp, if_true]
      exact (entryOf_filter db d d).trans (if_pos rfl)
    · simp only [hemp, if_false]
      refine (entryOf_modify db d d (fun s => List.erase s (arg line 2))).trans ?_
      rw [if_pos rfl, hv]
      rfl
  · intro h2 hnot
    have h2' : (arg line 2).isEmpty = false := by
      cases h : arg line 2 with
      | nil => exact absurd h h2
      | cons _ _ => rfl
    have hflag : (db.DeleteEvent d (arg line 2)).1 = false := by
      cases h : (db.DeleteEvent d (arg line 2)).1 with
      | false => rfl
      | true => exact absurd ((DeleteEvent_fst_iff db d (arg line 2) hwf hnc).mp h) hnot
    rw [hexec, h2']
    simp only [Bool.false_eq_true, if_false, hflag, DeleteEvent_unchanged db d _ hflag]

/-! ## The command interpreter: print -/

theorem matchesCanonical_Print (d : Date) (hv : Date.Valid d) (hmin : d.year ≠ -2147483648) :
    matchesCanonical (Date.Print d) = true := by
  obtain ⟨_, hall, _, _⟩ := natDigits_spec d.year.natAbs
  rw [Date_Print_eq d hv hmin]
  exact matchesCanonical_of_shape _ _ _ _ _ _ (all_isDigit_setwFill 4 _ hall)
    (length_setwFill_ge 4 _) (isDigit_digitChar _) (isDigit_digitChar _)
    (isDigit_digitChar _) (isDigit_digitChar _)

theorem pairs_cons (entry : Date × EventSet) (rest : Entries) :
    Database.pairs { entries := entry :: rest }
      = entry.2.map (fun event => (entry.1, event)) ++ Database.pairs { entries := rest } := by
  simp [Database.pairs]

theorem Print_cons (entry : Date × EventSet) (rest : Entries) :
    Database.Print { entries := entry :: rest }
      = (entry.2.map fun event => entry.1.Print ++ [' '] ++ event ++ ['\n']).flatten
        ++ Database.Print { entries := rest } := by
  simp [Database.Print]

/-- The output of `Database::Print` is the lines of the stored pairs, one after the
other. -/
theorem Print_eq_lines (db : Database) :
    db.Print = (db.pairs.map Database.line).flatten := by
  obtain ⟨m⟩ := db
  induction m with
  | nil => rfl
  | cons entry rest ih =>
    rw [Print_cons, pairs_cons, List.map_append, List.flatten_append, ih, List.map_map]
    rfl

theorem mem_pairs (db : Database) (p : Date × List Char) :
    p ∈ db.pairs ↔ ∃ v, (p.1, v) ∈ db.entries ∧ p.2 ∈ v := by
  obtain ⟨k, e⟩ := p
  simp only [Database.pairs, List.mem_flatten, List.mem_map]
  constructor
  · rintro ⟨l, ⟨entry, hentry, rfl⟩, hmem⟩
    simp only [List.mem_map, Prod.mk.injEq] at hmem
    obtain ⟨ev, hev, rfl, rfl⟩ := hmem
    exact ⟨entry.2, hentry, hev⟩
  · rintro ⟨v, hv, he⟩
    exact ⟨_, ⟨(k, v), hv, rfl⟩, List.mem_map.mpr ⟨e, he, rfl⟩⟩

theorem lookup_of_mem_sorted (k : Date) (v : EventSet) (m : Entries)
    (hm : m.Pairwise (fun a b => Date.lt a.1 b.1 = true)) (h : (k, v) ∈ m) :
    m.lookup k = some v := by
  induction m with
  | nil => simp at h
  | cons kv rest ih =>
    obtain ⟨x, w⟩ := kv
    rw [List.pairwise_cons] at hm
    rw [List.lookup_cons]
    rcases List.mem_cons.mp h with heq | hrest
    · simp only [Prod.mk.injEq] at heq
      rw [heq.1, heq.2]
      simp
    · have hne : k ≠ x := (Date_ne_of_lt (hm.1 (k, v) hrest)).symm
      have hb : (k == x) = false := by simpa using hne
      rw [hb]
      exact ih hm.2 hrest

theorem pairs_sorted (db : Database) (hwf : db.WellFormed) :
    db.pairs.Pairwise
      (fun p q => Date.lt p.1 q.1 = true ∨ (p.1 = q.1 ∧ strLt p.2 q.2 = true)) := by
  obtain ⟨m⟩ := db
  obtain ⟨hkeys, hsets⟩ := hwf
  induction m with
  | nil => exact List.Pairwise.nil
  | cons entry rest ih =>
    simp only at hkeys hsets
    rw [List.pairwise_cons] at hkeys
    rw [pairs_cons, List.pairwise_append]
    refine ⟨?_, ih hkeys.2 (fun e he => hsets e (List.mem_cons_of_mem _ he)), ?_⟩
    · exact (hsets entry (List.mem_cons_self _ _)).map _ fun a b hab => Or.inr ⟨rfl, hab⟩
    · intro a ha b hb
      obtain ⟨ev, -, rfl⟩ := List.mem_map.mp ha
      obtain ⟨v, hv, -⟩ := (mem_pairs { entries := rest } b).mp hb
      exact Or.inl (hkeys.1 (b.1, v) hv)

/-- C14, where it fails: the store reached by the line `add -2147483648-01-01 x`.  The
`print` command writes the line `--2147483648-01-01 x`, whose date text is not the
canonical text of the date of year `INT_MIN`. -/
theorem print_int_min_counterexample :
    Database.run [.executeCommand "add -2147483648-01-01 x".toList]
        = { entries := [(⟨-2147483648, 1, 1⟩, ["x".toList])] }
    ∧ Database.WellFormed { entries := [(⟨-2147483648, 1, 1⟩, ["x".toList])] }
    ∧ Date.Valid ⟨-2147483648, 1, 1⟩
    ∧ Database.ExecuteCommand { entries := [(⟨-2147483648, 1, 1⟩, ["x".toList])] }
          "print".toList
        = { db := { entries := [(⟨-2147483648, 1, 1⟩, ["x".toList])] },
            output := "--2147483648-01-01 x\n".toList, failure := none }
    ∧ matchesCanonical "--2147483648-01-01".toList = false := by
  decide

/-- C14 (amended): for every store (keys and labels in the order of `std::map` and
`std::set`) whose dates are valid with a year other than `INT_MIN`, the `print` command
(a line whose only token is `print` in any case) fails with nothing, leaves the store
unchanged and writes exactly the lines of the stored (date, event) pairs, nothing for the
empty store.  Each line is the canonical text of the date, one space, the label and the
end of line; each stored pair has one line, since the pairs are listed without
repetition: in strictly increasing order of date under `operator<`, and for one date in
strictly increasing order of label. -/
theorem print_command_spec (db : Database) (line t : List Char) (hwf : db.WellFormed)
    (hkeys : ∀ entry ∈ db.entries, Date.Valid entry.1 ∧ entry.1.year ≠ -2147483648)
    (ht : tokens line = [t]) (hprint : t.map toLower = "print".toList) :
    db.ExecuteCommand line
        = { db := db, output := (db.pairs.map Database.line).flatten, failure := none }
    ∧ (∀ p ∈ db.pairs, Database.line p = p.1.Print ++ [' '] ++ p.2 ++ ['\n']
        ∧ matchesCanonical p.1.Print = true)
    ∧ (∀ p, p ∈ db.pairs ↔ ∃ v, db.entryOf p.1 = some v ∧ p.2 ∈ v)
    ∧ db.pairs.Pairwise
        (fun p q => Date.lt p.1 q.1 = true ∨ (p.1 = q.1 ∧ strLt p.2 q.2 = true))
    ∧ db.pairs.Nodup
    ∧ (db.entries = [] → (db.ExecuteCommand line).output = []) := by
  have h0 : (arg line 0).map toLower = "print".toList := by
    unfold arg
    rw [ht]
    exact hprint
  have h1 : arg line 1 = [] := by unfold arg; rw [ht]; rfl
  have h2 : arg line 2 = [] := by unfold arg; rw [ht]; rfl
  have hexec : db.ExecuteCommand line
      = { db := db, output := (db.pairs.map Database.line).flatten, failure := none } := by
    rw [exec_print db line h0, h1, h2, Print_eq_lines]
    rfl
  have hsorted := pairs_sorted db hwf
  refine ⟨hexec, ?_, ?_, hsorted, ?_, ?_⟩
  · intro p hp
    obtain ⟨v, hv, -⟩ := (mem_pairs db p).mp hp
    obtain ⟨hvalid, hmin⟩ := hkeys (p.1, v) hv
    exact ⟨rfl, matchesCanonical_Print p.1 hvalid hmin⟩
  · intro p
    rw [mem_pairs]
    constructor
    · rintro ⟨v, hv, he⟩
      exact ⟨v, lookup_of_mem_sorted p.1 v db.entries hwf.1 hv, he⟩
    · rintro ⟨v, hv, he⟩
      exact ⟨v, mem_of_lookup_eq_some p.1 db.entries v hv, he⟩
  · refine hsorted.imp ?_
    intro p q h heq
    subst heq
    rcases h with h | ⟨-, h⟩
    · rw [Date_lt_irrefl] at h
      exact absurd h (by decide)
    · rw [strLt_irrefl] at h
      exact absurd h (by decide)
  · intro hempty
    rw [hexec]
    simp [Database.pairs, hempty]

/-- Witness for C14 (amended): a store of two dates and three events, and the line
`PRINT`. -/
theorem print_command_spec_witness :
    Database.WellFormed { entries := [(⟨2017, 1, 1⟩, ["a".toList, "b".toList]),
        (⟨2017, 1, 2⟩, ["c".toList])] }
    ∧ tokens " PRINT ".toList = ["PRINT".toList]
    ∧ Database.ExecuteCommand { entries := [(⟨2017, 1, 1⟩, ["a".toList, "b".toList]),
        (⟨2017, 1, 2⟩, ["c".toList])] } " PRINT ".toList
      = { db := { entries := [(⟨2017, 1, 1⟩, ["a".toList, "b".toList]),
            (⟨2017, 1, 2⟩, ["c".toList])] },
          output := "2017-01-01 a\n2017-01-01 b\n2017-01-02 c\n".toList, failure := none } :=
  ⟨by decide, by decide,
    (print_command_spec { entries := [(⟨2017, 1, 1⟩, ["a".toList, "b".toList]),
        (⟨2017, 1, 2⟩, ["c".toList])] } " PRINT ".toList "PRINT".toList (by decide)
      (by decide) (by decide) (by decide)).1.trans (by decide)⟩

end BasicDatabase
